import Mathlib

/-
Verification development for the parent-side controller of the zoid/xcomponent
cross-window component embedding library (src/component/parent/index.js).

The JavaScript source is shallowly embedded: JS values appearing as component
props are modelled by `JVal`, JSON-serializable objects by `JObj`, and the
per-instance mutable state of a `ParentComponent` by `Inst`.  Methods of
`ParentComponent` become pure Lean functions on these states; fallible methods
return `Except ErrKind _`.  Collaborators that live outside the embedded file
(the `post-robot` transport, DOM helpers, `lib` utilities such as `urlEncode`
and `stringifyWithFunctions`, the schema validator `validate.js`, the render
drivers, and `BaseComponent`'s cleanup registry) are modelled from the spec,
each marked `Modelled from the spec:` in its doc comment.
-/

namespace Zoid

/-! ## Decimal digits and integer serialization -/

def digitChar (d : Nat) : Char := Char.ofNat (48 + d)

def natToChars (n : Nat) : List Char :=
  if _h : n < 10 then [digitChar n]
  else natToChars (n / 10) ++ [digitChar (n % 10)]
termination_by n
decreasing_by exact Nat.div_lt_self (by omega) (by omega)

/-- Decimal serialization of an integer, as produced by JS `Number.prototype.toString`
and by `JSON.stringify` on integral numbers. -/
def intChars : Int → List Char
  | Int.ofNat m => natToChars m
  | Int.negSucc m => '-' :: natToChars (m + 1)

def intStr (i : Int) : String := String.mk (intChars i)

def isDigitB (c : Char) : Bool := 48 ≤ c.toNat && c.toNat ≤ 57

def digitsToNat (l : List Char) : Nat :=
  l.foldl (fun a c => 10 * a + (c.toNat - 48)) 0

/-! ## JSON values

Model of the JSON fragment produced by the platform's `JSON.stringify` on
component props (numbers restricted to integers).  The three sorts are mutual
so that structural induction over nested arrays/objects is available. -/

mutual

inductive JObj : Type where
  | jnull : JObj
  | jb : Bool → JObj
  | jn : Int → JObj
  | js : String → JObj
  | jarr : JArr → JObj
  | jmap : JMap → JObj

inductive JArr : Type where
  | anil : JArr
  | acons : JObj → JArr → JArr

inductive JMap : Type where
  | mnil : JMap
  | mcons : String → JObj → JMap → JMap

end

deriving instance DecidableEq for JObj
deriving instance Repr for JObj

def obrace : Char := Char.ofNat 123

def cbrace : Char := Char.ofNat 125

def hexDigit (d : Nat) : Char :=
  if d < 10 then Char.ofNat (48 + d) else Char.ofNat (97 + (d - 10))

/-- Escaping of a single character inside a JSON string literal, as done by
`JSON.stringify`: quote, backslash and control characters are escaped, any
other character passes through. -/
def escChar (c : Char) : List Char :=
  if c = '"' then ['\\', '"']
  else if c = '\\' then ['\\', '\\']
  else if c = '\n' then ['\\', 'n']
  else if c = '\t' then ['\\', 't']
  else if c = '\r' then ['\\', 'r']
  else if c = Char.ofNat 8 then ['\\', 'b']
  else if c = Char.ofNat 12 then ['\\', 'f']
  else if c.toNat < 32 then
    ['\\', 'u', '0', '0', hexDigit (c.toNat / 16), hexDigit (c.toNat % 16)]
  else [c]

def escChars : List Char → List Char
  | [] => []
  | c :: t => escChar c ++ escChars t

/-- JSON string literal for `s`, including the surrounding quotes. -/
def jstr (s : String) : List Char := '"' :: escChars s.data ++ ['"']

mutual

def strObj : JObj → List Char
  | JObj.jnull => ['n', 'u', 'l', 'l']
  | JObj.jb true => ['t', 'r', 'u', 'e']
  | JObj.jb false => ['f', 'a', 'l', 's', 'e']
  | JObj.jn n => intChars n
  | JObj.js s => jstr s
  | JObj.jarr a => '[' :: strArr a ++ [']']
  | JObj.jmap m => obrace :: strMap m ++ [cbrace]

def strArr : JArr → List Char
  | JArr.anil => []
  | JArr.acons h JArr.anil => strObj h
  | JArr.acons h (JArr.acons h2 t) => strObj h ++ ',' :: strArr (JArr.acons h2 t)

def strMap : JMap → List Char
  | JMap.mnil => []
  | JMap.mcons k v JMap.mnil => jstr k ++ ':' :: strObj v
  | JMap.mcons k v (JMap.mcons k2 v2 t) =>
      jstr k ++ ':' :: strObj v ++ ',' :: strMap (JMap.mcons k2 v2 t)

end

/-- Modelled from the spec: the platform `JSON.stringify`, an excluded external
collaborator ("URL/query encoding utilities"), restricted to the JSON fragment
`JObj` (integral numbers, insertion-ordered object keys). -/
def jsonStringify (o : JObj) : String := String.mk (strObj o)

/-! ## A JSON parser

A recursive-descent parser for the output language of `jsonStringify`, used to
state and prove the round-trip property ("an object prop serializes as JSON
that parses back to a structurally equal value").  Nesting depth is bounded by
an explicit fuel parameter. -/

def hexVal (c : Char) : Option Nat :=
  if 48 ≤ c.toNat ∧ c.toNat ≤ 57 then some (c.toNat - 48)
  else if 97 ≤ c.toNat ∧ c.toNat ≤ 102 then some (c.toNat - 87)
  else none

def parseStrChars : List Char → Option (List Char × List Char)
  | [] => none
  | c :: r =>
    if c = '"' then some ([], r)
    else if c = '\\' then
      match r with
      | [] => none
      | e :: r2 =>
        if e = '"' then (parseStrChars r2).map (fun p => ('"' :: p.1, p.2))
        else if e = '\\' then (parseStrChars r2).map (fun p => ('\\' :: p.1, p.2))
        else if e = 'n' then (parseStrChars r2).map (fun p => ('\n' :: p.1, p.2))
        else if e = 't' then (parseStrChars r2).map (fun p => ('\t' :: p.1, p.2))
        else if e = 'r' then (parseStrChars r2).map (fun p => ('\r' :: p.1, p.2))
        else if e = 'b' then (parseStrChars r2).map (fun p => (Char.ofNat 8 :: p.1, p.2))
        else if e = 'f' then (parseStrChars r2).map (fun p => (Char.ofNat 12 :: p.1, p.2))
        else if e = 'u' then
          match r2 with
          | a :: b :: c2 :: d :: r3 =>
            match hexVal a, hexVal b, hexVal c2, hexVal d with
            | some va, some vb, some vc, some vd =>
              (parseStrChars r3).map
                (fun p => (Char.ofNat (((va * 16 + vb) * 16 + vc) * 16 + vd) :: p.1, p.2))
            | _, _, _, _ => none
          | _ => none
        else none
    else (parseStrChars r).map (fun p => (c :: p.1, p.2))

def takeDigits (l : List Char) : List Char := l.takeWhile isDigitB

def dropDigits (l : List Char) : List Char := l.dropWhile isDigitB

def parseNatChars (l : List Char) : Option (Nat × List Char) :=
  match takeDigits l with
  | [] => none
  | ds => some (digitsToNat ds, dropDigits l)

def parseIntVal (l : List Char) : Option (JObj × List Char) :=
  match l with
  | [] => none
  | c :: r =>
    if c = '-' then (parseNatChars r).map (fun p => (JObj.jn (-(p.1 : Int)), p.2))
    else (parseNatChars (c :: r)).map (fun p => (JObj.jn (p.1 : Int), p.2))

def dropPre : List Char → List Char → Option (List Char)
  | [], l => some l
  | p :: ps, c :: cs => if c = p then dropPre ps cs else none
  | _ :: _, [] => none

mutual

def parseVal : Nat → List Char → Option (JObj × List Char)
  | 0, _ => none
  | Nat.succ fuel, cs =>
    match cs with
    | [] => none
    | c :: r =>
      if c = 'n' then (dropPre ['u', 'l', 'l'] r).map (fun rest => (JObj.jnull, rest))
      else if c = 't' then (dropPre ['r', 'u', 'e'] r).map (fun rest => (JObj.jb true, rest))
      else if c = 'f' then (dropPre ['a', 'l', 's', 'e'] r).map (fun rest => (JObj.jb false, rest))
      else if c = '"' then (parseStrChars r).map (fun p => (JObj.js (String.mk p.1), p.2))
      else if c = '[' then
        match r with
        | [] => none
        | d :: r2 =>
          if d = ']' then some (JObj.jarr JArr.anil, r2)
          else (parseArrItems fuel (d :: r2)).map (fun p => (JObj.jarr p.1, p.2))
      else if c = obrace then
        match r with
        | [] => none
        | d :: r2 =>
          if d = cbrace then some (JObj.jmap JMap.mnil, r2)
          else (parseMapItems fuel r).map (fun p => (JObj.jmap p.1, p.2))
      else if c = '-' ∨ isDigitB c then parseIntVal cs
      else none

def parseArrItems : Nat → List Char → Option (JArr × List Char)
  | 0, _ => none
  | Nat.succ fuel, cs =>
    match parseVal fuel cs with
    | none => none
    | some (v, r) =>
      match r with
      | [] => none
      | d :: r2 =>
        if d = ',' then (parseArrItems fuel r2).map (fun p => (JArr.acons v p.1, p.2))
        else if d = ']' then some (JArr.acons v JArr.anil, r2)
        else none

def parseMapItems : Nat → List Char → Option (JMap × List Char)
  | 0, _ => none
  | Nat.succ fuel, cs =>
    match cs with
    | [] => none
    | q :: r =>
      if q = '"' then
        match parseStrChars r with
        | none => none
        | some (k, r1) =>
          match r1 with
          | [] => none
          | col :: r2 =>
            if col = ':' then
              match parseVal fuel r2 with
              | none => none
              | some (v, r3) =>
                match r3 with
                | [] => none
                | d :: r4 =>
                  if d = ',' then
                    (parseMapItems fuel r4).map (fun p => (JMap.mcons (String.mk k) v p.1, p.2))
                  else if d = cbrace then some (JMap.mcons (String.mk k) v JMap.mnil, r4)
                  else none
            else none
      else none

end

/-- Modelled from the spec: the platform `JSON.parse`, restricted to the output
language of `jsonStringify` (no surrounding whitespace). -/
def jsonParse (s : String) : Option JObj :=
  match parseVal (s.length + 1) s.data with
  | some (v, []) => some v
  | _ => none

/-- The continuation after a serialized value never starts with a digit; this
is what makes greedy number parsing unambiguous. -/
def noDigitHead : List Char → Bool
  | [] => true
  | c :: _ => !isDigitB c

mutual

def sizeObj : JObj → Nat
  | JObj.jnull => 1
  | JObj.jb _ => 1
  | JObj.jn _ => 1
  | JObj.js _ => 1
  | JObj.jarr a => 1 + sizeArr a
  | JObj.jmap m => 1 + sizeMap m

def sizeArr : JArr → Nat
  | JArr.anil => 0
  | JArr.acons h t => 1 + sizeObj h + sizeArr t

def sizeMap : JMap → Nat
  | JMap.mnil => 0
  | JMap.mcons _ v t => 1 + sizeObj v + sizeMap t

end

/-! ## JavaScript prop values

`JVal` models the values a normalized prop can take: the declared prop types
are restricted to boolean, string, number, object and function (numbers
modelled as integers).  A function value `FnVal` records the identity of the
underlying raw function (`base`, with `0` reserved for the library's `noop`)
together with the wrappers applied to it, in application order; this captures
the "function identity/behavior" that the spec's stable stringify observes. -/

inductive Wrap : Type where
  | denodeified : Wrap
  | onced : Wrap
  | memoized : Wrap
  | bound : Wrap
deriving DecidableEq, Repr

structure FnVal where
  base : Nat
  wraps : List Wrap
deriving DecidableEq, Repr

inductive JVal : Type where
  | undef : JVal
  | jvnull : JVal
  | vb : Bool → JVal
  | vs : String → JVal
  | vn : Int → JVal
  | vo : JObj → JVal
  | vf : FnVal → JVal
deriving DecidableEq, Repr

/-- JS truthiness of a `JVal` (`undefined`, `null`, `false`, `""` and `0` are
falsy; objects and functions are truthy). -/
def truthy : JVal → Bool
  | JVal.undef => false
  | JVal.jvnull => false
  | JVal.vb b => b
  | JVal.vs s => !(s == "")
  | JVal.vn n => !(n == 0)
  | JVal.vo _ => true
  | JVal.vf _ => true

/-- A JS plain object holding props, as an insertion-ordered association list. -/
abbrev RawProps : Type := List (String × JVal)

/-- First-match association-list lookup (JS property access on an object whose
keys are unique). -/
def lookA {β : Type} (k : String) : List (String × β) → Option β
  | [] => none
  | kv :: t => if kv.1 = k then some kv.2 else lookA k t

/-- JS `props[key]`: `undefined` when the key is absent. -/
def lookupJ (ps : RawProps) (k : String) : JVal := (lookA k ps).getD JVal.undef

/-- JS `props.hasOwnProperty(key)`. -/
def hasKeyB (ps : RawProps) (k : String) : Bool := (lookA k ps).isSome

/-! ## URL query encoding -/

def isUnreservedUri (c : Char) : Bool :=
  (65 ≤ c.toNat && c.toNat ≤ 90) || (97 ≤ c.toNat && c.toNat ≤ 122) ||
  (48 ≤ c.toNat && c.toNat ≤ 57) ||
  c = '-' || c = '_' || c = '.' || c = '!' || c = '~' || c = '*' || c = '(' || c = ')'

def hexDigitU (d : Nat) : Char :=
  if d < 10 then Char.ofNat (48 + d) else Char.ofNat (65 + (d - 10))

def pctByte (b : UInt8) : List Char :=
  '%' :: hexDigitU (b.toNat / 16) :: [hexDigitU (b.toNat % 16)]

/-- Modelled from the spec: `urlEncode` from `lib` (a "URL/query encoding
utility", an excluded collaborator) — `encodeURIComponent`-style percent
encoding.  The apostrophe, which `encodeURIComponent` also leaves unescaped,
is conservatively percent-encoded here. -/
def urlEncode (s : String) : String :=
  String.mk (s.data.flatMap (fun c =>
    if isUnreservedUri c then [c]
    else ((String.singleton c).toUTF8.toList.flatMap pctByte)))

/-! ## Component definitions and prop schemas -/

inductive CtxType : Type where
  | iframe : CtxType
  | lightbox : CtxType
  | popup : CtxType
deriving DecidableEq, Repr

structure Contexts where
  iframe : Bool := false
  lightbox : Bool := false
  popup : Bool := false
deriving DecidableEq, Repr

def Contexts.allows (cs : Contexts) : CtxType → Bool
  | CtxType.iframe => cs.iframe
  | CtxType.lightbox => cs.lightbox
  | CtxType.popup => cs.popup

inductive PType : Type where
  | pboolean : PType
  | pstring : PType
  | pnumber : PType
  | pobject : PType
  | pfunction : PType
deriving DecidableEq, Repr

/-- A declared default for a prop: either a plain value, or a default factory
function (`prop.def instanceof Function`), which when *called* yields `ret`
and when used *as a value* (for a function-typed prop) is the function with
identity `fid`. -/
inductive DefV : Type where
  | plain : JVal → DefV
  | fnDef : Nat → JVal → DefV
deriving DecidableEq, Repr

structure PropDef where
  ptype : PType
  dflt : Option DefV := none
  noopFlag : Bool := false
  denodeifyFlag : Bool := false
  onceFlag : Bool := false
  memoizeFlag : Bool := false
deriving DecidableEq, Repr

structure Component where
  tag : String
  url : String := ""
  envUrls : List (String × String) := []
  contexts : Contexts := {}
  defaultContext : Option CtxType := none
  props : List (String × PropDef) := []
  singleton : Bool := false
deriving DecidableEq, Repr

/-! ## Error taxonomy

The source throws plain `Error`s; the spec classifies them.  Synchronous
precondition violations are ConfigurationErrors. -/

inductive ErrKind : Type where
  | alreadyRendered : String → ErrKind
  | invalidContext : CtxType → ErrKind
  | iframeNotAllowed : String → ErrKind
  | noContextAvailable : String → ErrKind
  | singletonViolation : String → ErrKind
  | elementNotFound : String → ErrKind
  | noParentWindow : String → ErrKind
  | notChildWindow : String → ErrKind
  | loadTimeout : String → ErrKind
  | remoteError : String → ErrKind
deriving DecidableEq, Repr

def isConfigurationError : ErrKind → Bool
  | ErrKind.alreadyRendered _ => true
  | ErrKind.invalidContext _ => true
  | ErrKind.iframeNotAllowed _ => true
  | ErrKind.noContextAvailable _ => true
  | ErrKind.singletonViolation _ => true
  | ErrKind.elementNotFound _ => true
  | ErrKind.noParentWindow _ => true
  | ErrKind.notChildWindow _ => true
  | ErrKind.loadTimeout _ => false
  | ErrKind.remoteError _ => false

/-! ## The props pipeline (normalizeProp / normalizeProps / propsToQuery / buildUrl) -/

/-- The library `noop` function (from `lib`). -/
def noopFn : FnVal := ⟨0, []⟩

/-- Truthiness of the schema field `prop.def` itself (the source guards default
substitution with `!hasProp && prop.def`): a function-valued default is always
truthy, a plain default is as truthy as its value. -/
def defTruthy : DefV → Bool
  | DefV.plain v => truthy v
  | DefV.fnDef _ _ => true

/-- `(prop.def instanceof Function && prop.type !== 'function') ? prop.def() : prop.def`. -/
def defEval (pd : PropDef) (d : DefV) : JVal :=
  match d with
  | DefV.plain v => v
  | DefV.fnDef fid ret => if pd.ptype = PType.pfunction then JVal.vf ⟨fid, []⟩ else ret

/-- The wrapper chain for a present function prop: `denodeify`, then `once`,
then `memoize` (each if flagged), then always `.bind(this)`. -/
def wrapChain (pd : PropDef) (f : FnVal) : FnVal :=
  { f with wraps := f.wraps
      ++ (if pd.denodeifyFlag then [Wrap.denodeified] else [])
      ++ (if pd.onceFlag then [Wrap.onced] else [])
      ++ (if pd.memoizeFlag then [Wrap.memoized] else [])
      ++ [Wrap.bound] }

/-- Wrapping applied to the prop value.  The source calls `.bind` on the value,
which would throw a TypeError on a truthy non-function; schema validation
(upstream of this core) makes that unreachable, and the model leaves such
values unchanged. -/
def applyWraps (pd : PropDef) : JVal → JVal
  | JVal.vf f => JVal.vf (wrapChain pd f)
  | v => v

/-- JS `parseInt(value || 0, 10)` restricted to the values reachable through a
schema-validated number prop.  On a string it parses a leading decimal
integer; an unparsable string or a non-numeric value yields `NaN` in JS,
modelled as `0` here (unreachable for validated props). -/
def parseIntJS : JVal → Int
  | JVal.vn n => n
  | JVal.vs s =>
    (match s.data with
     | '-' :: r => (parseNatChars r).elim 0 (fun p => -(p.1 : Int))
     | l => (parseNatChars l).elim 0 (fun p => (p.1 : Int)))
  | _ => 0

/-- Core of `normalizeProp` (source lines 172-232): `hasP` is the computed
`hasProp`, `rawV` the supplied value. -/
def normCore (pd : PropDef) (hasP : Bool) (rawV : JVal) : JVal :=
  let value :=
    match pd.dflt with
    | some d => if !hasP && defTruthy d then defEval pd d else rawV
    | none => rawV
  match pd.ptype with
  | PType.pboolean => JVal.vb (truthy value)
  | PType.pfunction =>
      if !(truthy value) then (if pd.noopFlag then JVal.vf noopFn else value)
      else applyWraps pd value
  | PType.pstring => if truthy value then value else JVal.vs ""
  | PType.pobject => value
  | PType.pnumber => JVal.vn (parseIntJS (if truthy value then value else JVal.vn 0))

def schemaLookup (c : Component) (k : String) : Option PropDef := lookA k c.props

/-- `hasProp = props.hasOwnProperty(key) && value !== null && value !== undefined && value !== ''`. -/
def hasPropB (props : RawProps) (k : String) : Bool :=
  hasKeyB props k && !(lookupJ props k == JVal.jvnull)
    && !(lookupJ props k == JVal.undef) && !(lookupJ props k == JVal.vs "")

/-- The value-only part of `hasProp` (the `hasOwnProperty` conjunct dropped):
what a re-normalization pass computes for a key that is present in the map. -/
def hasAgain (w : JVal) : Bool :=
  !(w == JVal.jvnull) && !(w == JVal.undef) && !(w == JVal.vs "")

/-- `ParentComponent.normalizeProp` (source lines 172-232). -/
def normalizeProp (c : Component) (props : RawProps) (k : String) : JVal :=
  match schemaLookup c k with
  | some pd => normCore pd (hasPropB props k) (lookupJ props k)
  | none => JVal.undef

/-- `ParentComponent.normalizeProps` (source lines 153-163): one entry per key
declared in the component's prop schema, in schema order. -/
def normalizeProps (c : Component) (props : RawProps) : RawProps :=
  c.props.map (fun kp => (kp.1, normalizeProp c props kp.1))

/-- The body of the arrow function inside `propsToQuery` (source lines 248-271):
`undefined` (for functions) is `none`, the empty string (for falsy values) is
`some ""`. -/
def queryBody (k : String) (v : JVal) : Option String :=
  if !(truthy v) then some ""
  else match v with
    | JVal.vb _ => some (urlEncode k ++ "=" ++ urlEncode "1")
    | JVal.vs s => some (urlEncode k ++ "=" ++ urlEncode s)
    | JVal.vf _ => none
    | JVal.vo o => some (urlEncode k ++ "=" ++ urlEncode (jsonStringify o))
    | JVal.vn n => some (urlEncode k ++ "=" ++ urlEncode (intStr n))
    | JVal.undef => some ""
    | JVal.jvnull => some ""

/-- The `.filter(Boolean)` step applied to one mapped entry: both `undefined`
and `''` are dropped. -/
def keepPiece (kv : String × JVal) : Option String :=
  match queryBody kv.1 kv.2 with
  | some s => if s = "" then none else some s
  | none => none

/-- `ParentComponent.propsToQuery` (source lines 246-273). -/
def propsToQuery (props : RawProps) : String :=
  String.intercalate "&" (props.filterMap keepPiece)

/-- String coercion used where the source interpolates a prop into a URL. -/
def asStr : JVal → String
  | JVal.vs s => s
  | JVal.vn n => intStr n
  | _ => ""

/-- `ParentComponent.buildUrl` (source lines 93-112): base URL from the `url`
prop, else the `env` prop through the definition's `envUrls` table (a missing
entry yields JS `undefined`, interpolated as the string `"undefined"`), else
the definition's `url`; then the query string is appended with `?` or `&`. -/
def buildUrl (c : Component) (props : RawProps) : String :=
  let base :=
    if truthy (lookupJ props "url") then asStr (lookupJ props "url")
    else if truthy (lookupJ props "env") then
      (lookA (asStr (lookupJ props "env")) c.envUrls).getD "undefined"
    else c.url
  let qs := propsToQuery props
  if qs = "" then base
  else base ++ (if base.data.contains '?' then "&" else "?") ++ qs

/-! ## Instance lifecycle state

One `Inst` per `ParentComponent` instance.  Mutable fields of the JS object
become record fields; observable actions (user callbacks invoked, protocol
messages sent, warnings logged, cleanup actions executed) are recorded in an
event trace. -/

inductive CleanupAct : Type where
  | clearWindow : CleanupAct
  | clearContext : CleanupAct
  | cancelListeners : CleanupAct
  | removeOverlay : CleanupAct
  | removeActive : Nat → CleanupAct
deriving DecidableEq, Repr

inductive Ev : Type where
  | onEnterCall : Ev
  | onCloseCall : Ev
  | onErrorCall : ErrKind → Ev
  | onTimeoutCall : ErrKind → Ev
  | sentProps : RawProps → Ev
  | sentClose : Ev
  | warnedCloseFailed : Ev
  | cleanupRan : CleanupAct → Ev
deriving DecidableEq, Repr

/-- State of the `onInit` SyncPromise: it settles at most once. -/
inductive PState : Type where
  | pending : PState
  | resolvedP : PState
  | rejectedP : ErrKind → PState
deriving DecidableEq, Repr

structure Inst where
  tag : String := ""
  props : RawProps := []
  url : String := ""
  window : Bool := false
  context : Option CtxType := none
  onInit : PState := PState.pending
  timerArmed : Bool := false
  pendingUpdates : List RawProps := []
  registry : List CleanupAct := []
  trace : List Ev := []
  destroyed : Bool := false
deriving DecidableEq, Repr

/-- Modelled from the spec: the instance-local effect of one cleanup action
registered with `BaseComponent.registerForCleanup` (BaseComponent is not under
src/).  Effects on the global singleton list are modelled in `destroyG`. -/
def runCleanupAct (st : Inst) (a : CleanupAct) : Inst :=
  match a with
  | CleanupAct.clearWindow => { st with window := false }
  | CleanupAct.clearContext => { st with context := none }
  | CleanupAct.cancelListeners => st
  | CleanupAct.removeOverlay => st
  | CleanupAct.removeActive _ => st

def runCleanupStep (st : Inst) (a : CleanupAct) : Inst :=
  let st1 := runCleanupAct st a
  { st1 with trace := st1.trace ++ [Ev.cleanupRan a] }

/-- `ParentComponent.destroy` (source lines 906-908), via `BaseComponent.cleanup`.
Modelled from the spec: "runs every registered cleanup action in registration
order, then clears the list; idempotent." -/
def destroyInst (st : Inst) : Inst :=
  let st1 := st.registry.foldl runCleanupStep st
  { st1 with registry := [], destroyed := true }

/-- `ParentComponent.runTimeout` (source lines 686-702): arms a single deferred
check only when the `timeout` prop is truthy. -/
def runTimeoutI (st : Inst) : Inst :=
  if truthy (lookupJ st.props "timeout") then { st with timerArmed := true } else st

def timeoutErr (st : Inst) : ErrKind := ErrKind.loadTimeout st.tag

/-- Expiry of the timer armed by `runTimeout`: `this.onInit.reject(error)` is a
no-op when the future already settled, so the `.catch` handler (which invokes
`onTimeout` and destroys) runs only when the future was still pending (the
already-rejected branch is unreachable with the single armed timer). -/
def timerFire (st : Inst) : Inst :=
  if !st.timerArmed then st
  else
    let st1 := { st with timerArmed := false }
    match st1.onInit with
    | PState.pending =>
      let e := timeoutErr st1
      destroyInst { st1 with onInit := PState.rejectedP e,
                             trace := st1.trace ++ [Ev.onTimeoutCall e] }
    | PState.resolvedP => st1
    | PState.rejectedP e0 =>
      destroyInst { st1 with trace := st1.trace ++ [Ev.onTimeoutCall e0] }

/-! ## Render context resolution and render -/

/-- `ParentComponent.getRenderContext` (source lines 328-360).  An explicit
target element forces iframe; a `defaultContext` is honored only when it is
lightbox or popup (the two inner `if`s); else lightbox if allowed, else popup
if allowed, else a configuration error. -/
def getRenderContext (c : Component) (el : Option Nat) : Except ErrKind CtxType :=
  match el with
  | some _ =>
    if !c.contexts.iframe then Except.error (ErrKind.iframeNotAllowed c.tag)
    else Except.ok CtxType.iframe
  | none =>
    if c.defaultContext = some CtxType.lightbox then Except.ok CtxType.lightbox
    else if c.defaultContext = some CtxType.popup then Except.ok CtxType.popup
    else if c.contexts.lightbox then Except.ok CtxType.lightbox
    else if c.contexts.popup then Except.ok CtxType.popup
    else Except.error (ErrKind.noContextAvailable c.tag)

/-- `ParentComponent.validateRender` (source lines 369-378). -/
def validateRender (c : Component) (st : Inst) (ctx : Option CtxType) : Option ErrKind :=
  if st.window then some (ErrKind.alreadyRendered c.tag)
  else
    match ctx with
    | some t => if !(c.contexts.allows t) then some (ErrKind.invalidContext t) else none
    | none => none

/-- Modelled from the spec: whether a render driver declares `overlay`
("whether this context requires a blocking background overlay"; drivers are
not under src/). -/
def driverOverlay : CtxType → Bool
  | CtxType.iframe => false
  | CtxType.lightbox => true
  | CtxType.popup => true

/-- The effects of a successful `render` after validation (source lines
395-414): driver pre-render, record context for cleanup, open the surface
(which also injects the component template and watches for close), listen,
load the URL, arm the timeout, create the overlay if the driver wants one,
watch for close.  Driver internals are not under src/ and are modelled from
the spec as the corresponding resource acquisitions. -/
def renderBody (st : Inst) (t : CtxType) : Inst :=
  let st := { st with context := some t,
                      registry := st.registry ++ [CleanupAct.clearContext] }
  let st := { st with window := true,
                      registry := st.registry ++ [CleanupAct.clearWindow, CleanupAct.cancelListeners] }
  let st := runTimeoutI st
  let st :=
    if driverOverlay t then { st with registry := st.registry ++ [CleanupAct.removeOverlay] }
    else st
  { st with registry := st.registry ++ [CleanupAct.cancelListeners] }

/-- `ParentComponent.render` (source lines 391-415): validate, resolve the
context (`context || this.getRenderContext(element)`), then perform the render
effects. -/
def render (c : Component) (st : Inst) (el : Option Nat) (ctx : Option CtxType) :
    Except ErrKind Inst :=
  match validateRender c st ctx with
  | some e => Except.error e
  | none =>
    match (match ctx with
           | some t => Except.ok t
           | none => getRenderContext c el) with
    | Except.error e => Except.error e
    | Except.ok t => Except.ok (renderBody st t)

/-! ## updateProps and the INIT handshake -/

/-- Modelled from the spec: `stringifyWithFunctions` from `lib` (not under
src/), "a stable stringify that also captures function identity/behavior".
Deterministic; function values are serialized through their identity and
wrapper chain. -/
def swfVal : JVal → String
  | JVal.undef => "u"
  | JVal.jvnull => "z"
  | JVal.vb b => if b then "bT" else "bF"
  | JVal.vs s => "s" ++ String.mk (jstr s)
  | JVal.vn n => "n" ++ intStr n
  | JVal.vo o => "o" ++ jsonStringify o
  | JVal.vf f => "f" ++ intStr (f.base : Int) ++ ";" ++ String.intercalate ","
      (f.wraps.map (fun w =>
        match w with
        | Wrap.denodeified => "d"
        | Wrap.onced => "1"
        | Wrap.memoized => "m"
        | Wrap.bound => "b"))

def swf (ps : RawProps) : String :=
  String.intercalate "|" (ps.map (fun kv => String.mk (jstr kv.1) ++ "=" ++ swfVal kv.2))

/-- JS `extend(extend({}, a), b)`: entries of `a` in order with values
overridden by `b`, followed by the entries of `b` whose keys are new. -/
def extendProps (a b : RawProps) : RawProps :=
  a.map (fun kv => (kv.1, (lookA kv.1 b).getD kv.2))
    ++ b.filter (fun kv => !(hasKeyB a kv.1))

/-- The body of the `onInit.then` callback in `ParentComponent.updateProps`
(source lines 126-143): snapshot the old serialized props, merge, `setProps`
(re-normalize and rebuild the URL), and send a PROPS message only when the
instance still has a window and the serialization changed. -/
def applyPropsUpdate (c : Component) (st : Inst) (raw : RawProps) : Inst :=
  let oldS := swf st.props
  let nprops := normalizeProps c (extendProps st.props raw)
  let st1 := { st with props := nprops, url := buildUrl c nprops }
  if st1.window && !(oldS == swf nprops) then
    { st1 with trace := st1.trace ++ [Ev.sentProps nprops] }
  else st1

/-- `ParentComponent.updateProps` (source lines 121-144): the update body is
deferred through `this.onInit.then`, so it runs immediately when the init
future is resolved, is queued while it is pending, and never runs once it is
rejected.  (`validateProps`, from `validate.js`, is assumed to pass.) -/
def updateProps (c : Component) (st : Inst) (raw : RawProps) : Inst :=
  match st.onInit with
  | PState.resolvedP => applyPropsUpdate c st raw
  | PState.pending => { st with pendingUpdates := st.pendingUpdates ++ [raw] }
  | PState.rejectedP _ => st

/-- The INIT message handler (source lines 718-728): invoke the enter callback
and resolve the init future; resolving a settled SyncPromise is a no-op, and
resolution synchronously runs the queued `updateProps` bodies in order. -/
def childInitMsg (c : Component) (st : Inst) : Inst :=
  match st.onInit with
  | PState.pending =>
    let st1 := { st with trace := st.trace ++ [Ev.onEnterCall],
                         onInit := PState.resolvedP, pendingUpdates := [] }
    st.pendingUpdates.foldl (applyPropsUpdate c) st1
  | _ => { st with trace := st.trace ++ [Ev.onEnterCall] }

/-! ## close and error flows -/

/-- Settlement of the future returned by `close`. -/
inductive POutcome : Type where
  | fulfilled : POutcome
  | rejectedO : ErrKind → POutcome
deriving DecidableEq, Repr

/-- `ParentComponent.close` (source lines 784-804): invoke the close callback,
send CLOSE to the child (`sendOk` is the transport outcome; a failure is
logged as a warning and swallowed by the `.catch`), then destroy
unconditionally; the returned future is fulfilled either way. -/
def closeInst (st : Inst) (sendOk : Bool) : POutcome × Inst :=
  let st1 := { st with trace := st.trace ++ [Ev.onCloseCall] }
  let st2 := { st1 with trace := st1.trace ++ [Ev.sentClose] }
  let st3 := if sendOk then st2 else { st2 with trace := st2.trace ++ [Ev.warnedCloseFailed] }
  (POutcome.fulfilled, destroyInst st3)

/-- `ParentComponent.error` (source lines 917-920): invoke the error callback
with the error, then destroy. -/
def errorFlow (st : Inst) (e : ErrKind) : Inst :=
  destroyInst { st with trace := st.trace ++ [Ev.onErrorCall e] }

/-- The ERROR message handler (source lines 771-773). -/
def childErrorMsg (st : Inst) (msg : String) : Inst :=
  errorFlow st (ErrKind.remoteError msg)

/-! ## The global singleton list and the constructor -/

structure GEntry where
  instId : Nat
  ctag : String
deriving DecidableEq, Repr

/-- The module-level `activeComponents` list. -/
abbrev GState : Type := List GEntry

/-- `ParentComponent` constructor (source lines 23-69), restricted to the parts
relevant here: reject a second live instance of a singleton component, push
onto `activeComponents`, register the splice for cleanup, and `setProps`.
Component identity (`comp.component === component`) is modelled by the unique
`tag`; `fresh` is the instance's `uniqueID()`. -/
def constructInst (g : GState) (c : Component) (fresh : Nat) (raw : RawProps) :
    Except ErrKind (GState × Inst) :=
  if c.singleton && g.any (fun en => en.ctag == c.tag) then
    Except.error (ErrKind.singletonViolation c.tag)
  else
    let nprops := normalizeProps c raw
    Except.ok (g ++ [⟨fresh, c.tag⟩],
      { tag := c.tag, props := nprops, url := buildUrl c nprops,
        registry := [CleanupAct.removeActive fresh] })

/-- One cleanup action, with its effect on the global list: `removeActive`
performs `activeComponents.splice(activeComponents.indexOf(this), 1)`
(instance ids are unique, so filtering by id removes that one entry). -/
def runCleanupActG (gs : GState × Inst) (a : CleanupAct) : GState × Inst :=
  match a with
  | CleanupAct.removeActive i => (gs.1.filter (fun en => !(en.instId == i)), gs.2)
  | _ => (gs.1, runCleanupAct gs.2 a)

def runCleanupStepG (gs : GState × Inst) (a : CleanupAct) : GState × Inst :=
  let gs1 := runCleanupActG gs a
  (gs1.1, { gs1.2 with trace := gs1.2.trace ++ [Ev.cleanupRan a] })

/-- `destroy` seen together with the global singleton list. -/
def destroyG (g : GState) (st : Inst) : GState × Inst :=
  let r := st.registry.foldl runCleanupStepG (g, st)
  (r.1, { r.2 with registry := [], destroyed := true })

/-! ## Spec-modelled validation and the spec's context-priority description -/

/-- A supplied value matches a declared type (absent-ish values always pass). -/
def typeOk : PType → JVal → Bool
  | _, JVal.undef => true
  | _, JVal.jvnull => true
  | PType.pboolean, JVal.vb _ => true
  | PType.pstring, JVal.vs _ => true
  | PType.pnumber, JVal.vn _ => true
  | PType.pobject, JVal.vo _ => true
  | PType.pfunction, JVal.vf _ => true
  | _, _ => false

/-- Modelled from the spec: `validateProps` from `validate.js` (not under
src/) — "fails with a ValidationError naming the offending key if an unknown
or mistyped prop is supplied". -/
def validatedProps (c : Component) (ps : RawProps) : Bool :=
  ps.all (fun kv =>
    match schemaLookup c kv.1 with
    | some pd => typeOk pd.ptype kv.2
    | none => false)

/-- A schema default is consistent with its prop's declared type. -/
def defOk (pd : PropDef) : Bool :=
  match pd.dflt with
  | none => true
  | some (DefV.plain v) => typeOk pd.ptype v
  | some (DefV.fnDef _ ret) =>
    if pd.ptype = PType.pfunction then true else typeOk pd.ptype ret

def validSchema (c : Component) : Bool := c.props.all (fun kp => defOk kp.2)

/-- Modelled from the spec: the component-definition checks of `validate.js`
(not under src/) that matter here — "only one of [popup, lightbox] may be the
implicit default", and a declared default context is declared in `contexts`. -/
def validComponent (c : Component) : Bool :=
  validSchema c &&
  (match c.defaultContext with
   | some CtxType.iframe => false
   | some d => c.contexts.allows d
   | none => true)

/-- The context-resolution priority exactly as the spec words it: "an explicit
target element forces iframe (fails if iframe isn't an allowed context); else
the definition's declared default context; else lightbox if allowed; else
popup if allowed; else fails with a configuration error". -/
def specContextPriority (c : Component) (el : Option Nat) : Except ErrKind CtxType :=
  match el with
  | some _ =>
    if c.contexts.iframe then Except.ok CtxType.iframe
    else Except.error (ErrKind.iframeNotAllowed c.tag)
  | none =>
    match c.defaultContext with
    | some d => Except.ok d
    | none =>
      if c.contexts.lightbox then Except.ok CtxType.lightbox
      else if c.contexts.popup then Except.ok CtxType.popup
      else Except.error (ErrKind.noContextAvailable c.tag)

/-! ## Trace observations -/

def Ev.isErrorCall : Ev → Bool
  | Ev.onErrorCall _ => true
  | _ => false

def Ev.isCleanup : Ev → Bool
  | Ev.cleanupRan _ => true
  | _ => false

def Ev.isSentProps : Ev → Bool
  | Ev.sentProps _ => true
  | _ => false

/-- Number of PROPS messages recorded in a trace. -/
def countSent (tr : List Ev) : Nat := (tr.filter Ev.isSentProps).length

/-- The formalization of "torn down before the error callback returns": in the
emitted event trace, no cleanup action runs at or after the error callback
invocation. -/
def tornDownBeforeErrorCallback (tr : List Ev) : Bool :=
  !((tr.dropWhile (fun ev => !ev.isErrorCall)).any Ev.isCleanup)

/-! ## Concrete fixtures used by witnesses and counterexamples -/

/-- The spec's example component: contexts `(iframe, lightbox)`, env URL table
`prod -> https://x.example/run`, a string `env` prop. -/
def cEx : Component :=
  { tag := "x",
    envUrls := [("prod", "https://x.example/run")],
    contexts := { iframe := true, lightbox := true },
    props := [("env", { ptype := PType.pstring })] }

/-- The example component with iframe removed from the allowed contexts. -/
def cExNoIframe : Component :=
  { cEx with contexts := { lightbox := true } }

/-- A component whose default context is iframe: `getRenderContext` ignores it
(only the lightbox/popup branches exist), so such a definition is rejected by
the validator model. -/
def cDefIframe : Component :=
  { tag := "y", contexts := { iframe := true, lightbox := true },
    defaultContext := some CtxType.iframe }

/-- A schema with one noop-flagged function prop: normalization of an already
normalized props map wraps and binds the noop again. -/
def cFnProp : Component :=
  { tag := "t", props := [("cb", { ptype := PType.pfunction, noopFlag := true })] }

/-- Component and instance for the updateProps counterexample: the init future
is resolved but the window handle is gone. -/
def cUpd : Component :=
  { tag := "w", props := [("a", { ptype := PType.pstring })] }

def stUpdNoWindow : Inst :=
  { tag := "w", props := normalizeProps cUpd [], onInit := PState.resolvedP,
    window := false }

def stUpdLive : Inst :=
  { tag := "w", props := normalizeProps cUpd [], onInit := PState.resolvedP,
    window := true }

/-- An instance with a timeout prop set and one registered cleanup action. -/
def stTimer : Inst :=
  { tag := "t", props := [("timeout", JVal.vn 5000), ("onX", JVal.vf ⟨7, []⟩)],
    window := true, registry := [CleanupAct.clearWindow, CleanupAct.cancelListeners] }

/-- An instance used for the error-flow counterexample. -/
def stErr : Inst :=
  { tag := "t", window := true,
    registry := [CleanupAct.clearWindow, CleanupAct.removeOverlay] }

/-- A singleton component. -/
def cSing : Component := { tag := "s", singleton := true }

/-- The global list after constructing one `cSing` instance with id 1. -/
def gSing : GState := [⟨1, "s"⟩]

/-- The instance produced by that construction. -/
def iSing : Inst := { tag := "s", registry := [CleanupAct.removeActive 1] }

/-! # Theorems

First, auxiliary lemmas about decimal serialization and the JSON round trip,
then lemmas about the state machine, then one theorem per claim. -/

theorem digitChar_facts : ∀ d, d < 10 → isDigitB (digitChar d) = true ∧ (digitChar d).toNat = 48 + d := by
  decide

theorem natToChars_lt {n : Nat} (h : n < 10) : natToChars n = [digitChar n] := by
  unfold natToChars
  rw [dif_pos h]

theorem natToChars_ge {n : Nat} (h : ¬ n < 10) :
    natToChars n = natToChars (n / 10) ++ [digitChar (n % 10)] := by
  conv_lhs => rw [natToChars]
  rw [dif_neg h]

theorem natToChars_ne_nil (n : Nat) : natToChars n ≠ [] := by
  by_cases h : n < 10
  · rw [natToChars_lt h]; simp
  · rw [natToChars_ge h]; simp

theorem natToChars_all_digits (n : Nat) : ∀ c ∈ natToChars n, isDigitB c = true := by
  induction n using Nat.strong_induction_on with
  | _ n ih =>
    by_cases h : n < 10
    · rw [natToChars_lt h]
      intro c hc
      simp only [List.mem_singleton] at hc
      subst hc
      exact (digitChar_facts n h).1
    · rw [natToChars_ge h]
      intro c hc
      rcases List.mem_append.mp hc with h1 | h2
      · exact ih (n / 10) (Nat.div_lt_self (by omega) (by omega)) c h1
      · simp only [List.mem_singleton] at h2
        subst h2
        exact (digitChar_facts (n % 10) (Nat.mod_lt n (by omega))).1

theorem digitsToNat_append (xs : List Char) (c : Char) :
    digitsToNat (xs ++ [c]) = 10 * digitsToNat xs + (c.toNat - 48) := by
  simp [digitsToNat, List.foldl_append]

theorem digitsToNat_natToChars (n : Nat) : digitsToNat (natToChars n) = n := by
  induction n using Nat.strong_induction_on with
  | _ n ih =>
    by_cases h : n < 10
    · rw [natToChars_lt h]
      have := (digitChar_facts n h).2
      simp [digitsToNat]
      omega
    · rw [natToChars_ge h, digitsToNat_append,
          ih (n / 10) (Nat.div_lt_self (by omega) (by omega)),
          (digitChar_facts (n % 10) (Nat.mod_lt n (by omega))).2]
      omega

theorem takeWhile_append_all {p : Char → Bool} {xs : List Char}
    (h : ∀ c ∈ xs, p c = true) (rest : List Char) :
    (xs ++ rest).takeWhile p = xs ++ rest.takeWhile p := by
  induction xs with
  | nil => simp
  | cons c t ih =>
    simp [List.takeWhile_cons, h c (by simp), ih (fun c hc => h c (by simp [hc]))]

theorem dropWhile_append_all {p : Char → Bool} {xs : List Char}
    (h : ∀ c ∈ xs, p c = true) (rest : List Char) :
    (xs ++ rest).dropWhile p = rest.dropWhile p := by
  induction xs with
  | nil => simp
  | cons c t ih =>
    simp only [List.cons_append, List.dropWhile_cons, h c (by simp)]
    exact ih (fun c hc => h c (by simp [hc]))

theorem takeWhile_nodigit {rest : List Char} (h : noDigitHead rest = true) :
    rest.takeWhile isDigitB = [] := by
  cases rest with
  | nil => simp
  | cons c t =>
    simp only [noDigitHead, Bool.not_eq_true'] at h
    simp [List.takeWhile_cons, h]

theorem dropWhile_nodigit {rest : List Char} (h : noDigitHead rest = true) :
    rest.dropWhile isDigitB = rest := by
  cases rest with
  | nil => simp
  | cons c t =>
    simp only [noDigitHead, Bool.not_eq_true'] at h
    simp [List.dropWhile_cons, h]

theorem parseNatChars_round (n : Nat) (rest : List Char) (h : noDigitHead rest = true) :
    parseNatChars (natToChars n ++ rest) = some (n, rest) := by
  unfold parseNatChars takeDigits dropDigits
  rw [takeWhile_append_all (natToChars_all_digits n), dropWhile_append_all (natToChars_all_digits n),
      takeWhile_nodigit h, dropWhile_nodigit h, List.append_nil]
  obtain ⟨c, l', hcl⟩ := List.exists_cons_of_ne_nil (natToChars_ne_nil n)
  rw [hcl]
  show some (digitsToNat (c :: l'), rest) = some (n, rest)
  rw [← hcl, digitsToNat_natToChars]

theorem isDigitB_ne (c : Char) (h : isDigitB c = true) :
    c ≠ '-' ∧ c ≠ 'n' ∧ c ≠ 't' ∧ c ≠ 'f' ∧ c ≠ '"' ∧ c ≠ '[' ∧ c ≠ ']' ∧
    c ≠ obrace ∧ c ≠ cbrace ∧ c ≠ ',' ∧ c ≠ ':' := by
  refine ⟨?_, ?_, ?_, ?_, ?_, ?_, ?_, ?_, ?_, ?_, ?_⟩ <;> rintro rfl <;> revert h <;> decide

theorem parseIntVal_round (i : Int) (rest : List Char) (h : noDigitHead rest = true) :
    parseIntVal (intChars i ++ rest) = some (JObj.jn i, rest) := by
  cases i with
  | ofNat m =>
    obtain ⟨c, l', hcl⟩ := List.exists_cons_of_ne_nil (natToChars_ne_nil m)
    have hd : isDigitB c = true := natToChars_all_digits m c (by rw [hcl]; simp)
    simp only [intChars]
    rw [hcl, List.cons_append, parseIntVal]
    rw [if_neg (isDigitB_ne c hd).1, ← List.cons_append, ← hcl, parseNatChars_round m rest h]
    rfl
  | negSucc m =>
    simp only [intChars, List.cons_append, parseIntVal, if_pos rfl]
    rw [parseNatChars_round (m + 1) rest h]
    simp [Int.negSucc_eq]

theorem hexVal_hexDigit : ∀ d, d < 16 → hexVal (hexDigit d) = some d := by
  decide

theorem parseStr_round (l : List Char) (rest : List Char) :
    parseStrChars (escChars l ++ '"' :: rest) = some (l, rest) := by
  induction l with
  | nil =>
    simp only [escChars, List.nil_append]
    rw [parseStrChars.eq_def]
    simp +decide
  | cons c t ih =>
    simp only [escChars, List.append_assoc]
    by_cases h1 : c = '"'
    · subst h1
      rw [show escChar '"' = ['\\', '"'] from rfl]
      simp only [List.cons_append, List.nil_append]
      rw [parseStrChars.eq_def]
      simp +decide [ih]
    · by_cases h2 : c = '\\'
      · subst h2
        rw [show escChar '\\' = ['\\', '\\'] from rfl]
        simp only [List.cons_append, List.nil_append]
        rw [parseStrChars.eq_def]
        simp +decide [ih]
      · by_cases h3 : c = '\n'
        · subst h3
          rw [show escChar '\n' = ['\\', 'n'] from rfl]
          simp only [List.cons_append, List.nil_append]
          rw [parseStrChars.eq_def]
          simp +decide [ih]
        · by_cases h4 : c = '\t'
          · subst h4
            rw [show escChar '\t' = ['\\', 't'] from rfl]
            simp only [List.cons_append, List.nil_append]
            rw [parseStrChars.eq_def]
            simp +decide [ih]
          · by_cases h5 : c = '\r'
            · subst h5
              rw [show escChar '\r' = ['\\', 'r'] from rfl]
              simp only [List.cons_append, List.nil_append]
              rw [parseStrChars.eq_def]
              simp +decide [ih]
            · by_cases h6 : c = Char.ofNat 8
              · subst h6
                rw [show escChar (Char.ofNat 8) = ['\\', 'b'] from by decide]
                simp only [List.cons_append, List.nil_append]
                rw [parseStrChars.eq_def]
                simp +decide [ih]
              · by_cases h7 : c = Char.ofNat 12
                · subst h7
                  rw [show escChar (Char.ofNat 12) = ['\\', 'f'] from by decide]
                  simp only [List.cons_append, List.nil_append]
                  rw [parseStrChars.eq_def]
                  simp +decide [ih]
                · by_cases h8 : c.toNat < 32
                  · have hhi : c.toNat / 16 < 16 := by omega
                    have hlo : c.toNat % 16 < 16 := by omega
                    simp only [escChar, if_neg h1, if_neg h2, if_neg h3, if_neg h4, if_neg h5,
                      if_neg h6, if_neg h7, if_pos h8, List.cons_append, List.nil_append]
                    rw [parseStrChars.eq_def]
                    simp +decide [hexVal_hexDigit _ hhi, hexVal_hexDigit _ hlo, ih]
                    rw [show hexVal '0' = some 0 from by decide]
                    show some (Char.ofNat (((0 * 16 + 0) * 16 + c.toNat / 16) * 16 + c.toNat % 16) :: t,
                        rest) = some (c :: t, rest)
                    rw [show ((0 * 16 + 0) * 16 + c.toNat / 16) * 16 + c.toNat % 16 = c.toNat
                          from by omega, Char.ofNat_toNat]
                  · simp only [escChar, if_neg h1, if_neg h2, if_neg h3, if_neg h4, if_neg h5,
                      if_neg h6, if_neg h7, if_neg h8, List.cons_append, List.nil_append]
                    rw [parseStrChars.eq_def]
                    simp [if_neg h1, if_neg h2, ih]

theorem strMk_data (s : String) : String.mk s.data = s := rfl

theorem parseVal_digit (f : Nat) (c : Char) (r : List Char) (hd : isDigitB c = true) :
    parseVal (f + 1) (c :: r) = parseIntVal (c :: r) := by
  obtain ⟨_, hn, ht, hf2, hq, hb, _, hob, _, _, _⟩ := isDigitB_ne c hd
  rw [parseVal.eq_def]
  simp [hn, ht, hf2, hq, hb, hob, hd]

theorem parseVal_dash (f : Nat) (r : List Char) :
    parseVal (f + 1) ('-' :: r) = parseIntVal ('-' :: r) := by
  rw [parseVal.eq_def]
  simp +decide

theorem intChars_head (i : Int) :
    ∃ c l, intChars i = c :: l ∧ (c = '-' ∨ isDigitB c = true) := by
  cases i with
  | ofNat m =>
    obtain ⟨c, l', hcl⟩ := List.exists_cons_of_ne_nil (natToChars_ne_nil m)
    have hd : isDigitB c = true := natToChars_all_digits m c (by rw [hcl]; simp)
    exact ⟨c, l', by rw [show intChars (Int.ofNat m) = natToChars m from rfl, hcl], Or.inr hd⟩
  | negSucc m => exact ⟨'-', natToChars (m + 1), rfl, Or.inl rfl⟩

theorem parseVal_int (f : Nat) (i : Int) (rest : List Char) (hr : noDigitHead rest = true) :
    parseVal (f + 1) (intChars i ++ rest) = some (JObj.jn i, rest) := by
  obtain ⟨c, l, hcl, hc⟩ := intChars_head i
  rw [hcl, List.cons_append]
  rcases hc with rfl | hd
  · rw [parseVal_dash, ← List.cons_append, ← hcl, parseIntVal_round i rest hr]
  · rw [parseVal_digit f c _ hd, ← List.cons_append, ← hcl, parseIntVal_round i rest hr]

theorem strObj_head (o : JObj) : ∃ c l, strObj o = c :: l ∧ c ≠ ']' := by
  cases o with
  | jnull => exact ⟨'n', _, rfl, by decide⟩
  | jb b =>
    cases b
    · exact ⟨'f', _, rfl, by decide⟩
    · exact ⟨'t', _, rfl, by decide⟩
  | jn n =>
    obtain ⟨c, l, hcl, hc⟩ := intChars_head n
    refine ⟨c, l, by rw [show strObj (JObj.jn n) = intChars n from rfl, hcl], ?_⟩
    rcases hc with rfl | hd
    · decide
    · exact (isDigitB_ne c hd).2.2.2.2.2.2.1
  | js s => exact ⟨'"', _, rfl, by decide⟩
  | jarr a => exact ⟨'[', _, rfl, by decide⟩
  | jmap m => exact ⟨obrace, _, rfl, by decide⟩

theorem strArr_cons_ex (h : JObj) (t : JArr) :
    ∃ x, strArr (JArr.acons h t) = strObj h ++ x := by
  cases t with
  | anil => exact ⟨[], by simp [strArr]⟩
  | acons h2 t2 => exact ⟨',' :: strArr (JArr.acons h2 t2), rfl⟩

theorem strMap_cons_ex (k : String) (v : JObj) (t : JMap) :
    ∃ x, strMap (JMap.mcons k v t) = '"' :: x := by
  cases t with
  | mnil => exact ⟨escChars k.data ++ ['"'] ++ ':' :: strObj v, by simp [strMap, jstr]⟩
  | mcons k2 v2 t2 =>
    exact ⟨escChars k.data ++ ['"'] ++ ':' :: strObj v ++ ',' :: strMap (JMap.mcons k2 v2 t2),
      by simp [strMap, jstr]⟩

@[simp] theorem sizeObj_jarr (a : JArr) : sizeObj (JObj.jarr a) = 1 + sizeArr a := rfl

@[simp] theorem sizeObj_jmap (m : JMap) : sizeObj (JObj.jmap m) = 1 + sizeMap m := rfl

@[simp] theorem sizeArr_acons (h : JObj) (t : JArr) :
    sizeArr (JArr.acons h t) = 1 + sizeObj h + sizeArr t := rfl

@[simp] theorem sizeMap_mcons (k : String) (v : JObj) (t : JMap) :
    sizeMap (JMap.mcons k v t) = 1 + sizeObj v + sizeMap t := rfl

@[simp] theorem sizeObj_jnull : sizeObj JObj.jnull = 1 := rfl

@[simp] theorem sizeObj_jb (b : Bool) : sizeObj (JObj.jb b) = 1 := rfl

@[simp] theorem sizeObj_jn (n : Int) : sizeObj (JObj.jn n) = 1 := rfl

@[simp] theorem sizeObj_js (s : String) : sizeObj (JObj.js s) = 1 := rfl

/-- Round trip of the JSON parser against the serializer, all three sorts at
once, by strong induction on a bound for the serialized value's size. -/
theorem jsonRound_aux (n : Nat) :
    (∀ o fuel rest, sizeObj o ≤ n → sizeObj o < fuel → noDigitHead rest = true →
      parseVal fuel (strObj o ++ rest) = some (o, rest)) ∧
    (∀ a fuel rest, a ≠ JArr.anil → sizeArr a ≤ n → sizeArr a < fuel →
      noDigitHead rest = true →
      parseArrItems fuel (strArr a ++ ']' :: rest) = some (a, rest)) ∧
    (∀ m fuel rest, m ≠ JMap.mnil → sizeMap m ≤ n → sizeMap m < fuel →
      noDigitHead rest = true →
      parseMapItems fuel (strMap m ++ cbrace :: rest) = some (m, rest)) := by
  induction n using Nat.strong_induction_on with
  | _ n ih =>
    refine ⟨?_, ?_, ?_⟩
    · intro o fuel rest hn hf hr
      cases fuel with
      | zero => omega
      | succ f =>
        cases o with
        | jnull =>
          rw [parseVal.eq_def]
          simp +decide [strObj, dropPre]
        | jb b =>
          cases b with
          | false =>
            rw [parseVal.eq_def]
            simp +decide [strObj, dropPre]
          | true =>
            rw [parseVal.eq_def]
            simp +decide [strObj, dropPre]
        | jn i => exact parseVal_int f i rest hr
        | js s =>
          rw [show strObj (JObj.js s) = '"' :: (escChars s.data ++ ['"']) from rfl,
              List.cons_append, List.append_assoc, List.singleton_append]
          rw [parseVal.eq_def]
          simp +decide [parseStr_round, strMk_data]
        | jarr a =>
          cases a with
          | anil =>
            rw [show strObj (JObj.jarr JArr.anil) = ['[', ']'] from rfl]
            rw [parseVal.eq_def]
            simp +decide
          | acons h t =>
            simp only [sizeObj_jarr, sizeArr_acons] at hn hf
            have ht := (ih (sizeArr (JArr.acons h t)) (by simp; omega)).2.1
              (JArr.acons h t) f rest (by simp) (by simp) (by simp; omega) hr
            obtain ⟨x, hx⟩ := strArr_cons_ex h t
            obtain ⟨c0, l0, hcl, hc0⟩ := strObj_head h
            rw [show strObj (JObj.jarr (JArr.acons h t))
                  = '[' :: (strArr (JArr.acons h t) ++ [']']) from rfl,
                List.cons_append, List.append_assoc, List.singleton_append,
                hx, List.append_assoc, hcl, List.cons_append]
            rw [parseVal.eq_def]
            simp +decide only [hc0]
            rw [← List.cons_append, ← hcl, ← List.append_assoc, ← hx, ht]
            rfl
        | jmap m =>
          cases m with
          | mnil =>
            rw [show strObj (JObj.jmap JMap.mnil) = [obrace, cbrace] from rfl]
            rw [parseVal.eq_def]
            simp +decide
          | mcons k v t =>
            simp only [sizeObj_jmap, sizeMap_mcons] at hn hf
            have ht := (ih (sizeMap (JMap.mcons k v t)) (by simp; omega)).2.2
              (JMap.mcons k v t) f rest (by simp) (by simp) (by simp; omega) hr
            obtain ⟨x, hx⟩ := strMap_cons_ex k v t
            rw [show strObj (JObj.jmap (JMap.mcons k v t))
                  = obrace :: (strMap (JMap.mcons k v t) ++ [cbrace]) from rfl,
                List.cons_append, List.append_assoc, List.singleton_append,
                hx, List.cons_append]
            rw [parseVal.eq_def]
            simp +decide only []
            rw [← List.cons_append, ← hx, ht]
            rfl
    · intro a fuel rest ha hn hf hr
      cases fuel with
      | zero => omega
      | succ f =>
        cases a with
        | anil => exact absurd rfl ha
        | acons h t =>
          simp only [sizeArr_acons] at hn hf
          cases t with
          | anil =>
            have hv := (ih (sizeObj h) (by omega)).1 h f (']' :: rest) le_rfl
              (by have h0 : sizeArr JArr.anil = 0 := rfl; omega) rfl
            rw [show strArr (JArr.acons h JArr.anil) = strObj h from rfl,
                parseArrItems.eq_def]
            simp +decide [hv]
          | acons h2 t2 =>
            have hv := (ih (sizeObj h) (by omega)).1 h f
              (',' :: (strArr (JArr.acons h2 t2) ++ ']' :: rest)) le_rfl (by omega) rfl
            have ht := (ih (sizeArr (JArr.acons h2 t2)) (by simp at hn ⊢; omega)).2.1
              (JArr.acons h2 t2) f rest (by simp) le_rfl (by simp at hf ⊢; omega) hr
            rw [show strArr (JArr.acons h (JArr.acons h2 t2))
                  = strObj h ++ ',' :: strArr (JArr.acons h2 t2) from rfl,
                List.append_assoc, List.cons_append]
            rw [parseArrItems.eq_def]
            simp +decide [hv, ht]
    · intro m fuel rest hm hn hf hr
      cases fuel with
      | zero => omega
      | succ f =>
        cases m with
        | mnil => exact absurd rfl hm
        | mcons k v t =>
          simp only [sizeMap_mcons] at hn hf
          cases t with
          | mnil =>
            have hv := (ih (sizeObj v) (by omega)).1 v f (cbrace :: rest) le_rfl
              (by have h0 : sizeMap JMap.mnil = 0 := rfl; omega) rfl
            rw [show strMap (JMap.mcons k v JMap.mnil) = jstr k ++ ':' :: strObj v from rfl,
                show jstr k = '"' :: (escChars k.data ++ ['"']) from rfl]
            simp only [List.cons_append, List.append_assoc, List.singleton_append]
            rw [parseMapItems.eq_def]
            simp +decide [parseStr_round, hv, strMk_data]
          | mcons k2 v2 t2 =>
            have hv := (ih (sizeObj v) (by omega)).1 v f
              (',' :: (strMap (JMap.mcons k2 v2 t2) ++ cbrace :: rest)) le_rfl
              (by omega) rfl
            have ht := (ih (sizeMap (JMap.mcons k2 v2 t2)) (by simp at hn ⊢; omega)).2.2
              (JMap.mcons k2 v2 t2) f rest (by simp) le_rfl (by simp at hf ⊢; omega) hr
            rw [show strMap (JMap.mcons k v (JMap.mcons k2 v2 t2))
                  = jstr k ++ ':' :: strObj v ++ ',' :: strMap (JMap.mcons k2 v2 t2) from rfl,
                show jstr k = '"' :: (escChars k.data ++ ['"']) from rfl]
            simp only [List.cons_append, List.append_assoc, List.singleton_append]
            rw [parseMapItems.eq_def]
            simp +decide [parseStr_round, hv, ht, strMk_data]

theorem parseVal_round (o : JObj) (fuel : Nat) (rest : List Char)
    (hf : sizeObj o < fuel) (hr : noDigitHead rest = true) :
    parseVal fuel (strObj o ++ rest) = some (o, rest) :=
  (jsonRound_aux (sizeObj o)).1 o fuel rest le_rfl hf hr

theorem sizeLe_aux (n : Nat) :
    (∀ o, sizeObj o ≤ n → sizeObj o ≤ (strObj o).length) ∧
    (∀ a, sizeArr a ≤ n → sizeArr a ≤ 1 + (strArr a).length) ∧
    (∀ m, sizeMap m ≤ n → sizeMap m ≤ 1 + (strMap m).length) := by
  induction n using Nat.strong_induction_on with
  | _ n ih =>
    refine ⟨?_, ?_, ?_⟩
    · intro o hn
      cases o with
      | jnull => simp [strObj]
      | jb b => cases b <;> simp [strObj]
      | jn i =>
        obtain ⟨c, l, hcl, _⟩ := intChars_head i
        rw [show strObj (JObj.jn i) = intChars i from rfl, hcl]
        simp
      | js s => simp [strObj, jstr]
      | jarr a =>
        simp only [sizeObj_jarr] at hn ⊢
        have := (ih (sizeArr a) (by omega)).2.1 a le_rfl
        rw [show strObj (JObj.jarr a) = '[' :: (strArr a ++ [']']) from rfl]
        simp
        omega
      | jmap m =>
        simp only [sizeObj_jmap] at hn ⊢
        have := (ih (sizeMap m) (by omega)).2.2 m le_rfl
        rw [show strObj (JObj.jmap m) = obrace :: (strMap m ++ [cbrace]) from rfl]
        simp
        omega
    · intro a hn
      cases a with
      | anil => decide
      | acons h t =>
        simp only [sizeArr_acons] at hn ⊢
        have hh := (ih (sizeObj h) (by omega)).1 h le_rfl
        cases t with
        | anil =>
          rw [show strArr (JArr.acons h JArr.anil) = strObj h from rfl]
          have h0 : sizeArr JArr.anil = 0 := rfl
          omega
        | acons h2 t2 =>
          have ht := (ih (sizeArr (JArr.acons h2 t2)) (by omega)).2.1
            (JArr.acons h2 t2) le_rfl
          rw [show strArr (JArr.acons h (JArr.acons h2 t2))
                = strObj h ++ ',' :: strArr (JArr.acons h2 t2) from rfl]
          have hd : sizeArr (JArr.acons h2 t2) = 1 + sizeObj h2 + sizeArr t2 := rfl
          simp
          omega
    · intro m hn
      cases m with
      | mnil => decide
      | mcons k v t =>
        simp only [sizeMap_mcons] at hn ⊢
        have hh := (ih (sizeObj v) (by omega)).1 v le_rfl
        cases t with
        | mnil =>
          rw [show strMap (JMap.mcons k v JMap.mnil) = jstr k ++ ':' :: strObj v from rfl]
          have h0 : sizeMap JMap.mnil = 0 := rfl
          simp
          omega
        | mcons k2 v2 t2 =>
          have ht := (ih (sizeMap (JMap.mcons k2 v2 t2)) (by omega)).2.2
            (JMap.mcons k2 v2 t2) le_rfl
          rw [show strMap (JMap.mcons k v (JMap.mcons k2 v2 t2))
                = jstr k ++ ':' :: strObj v ++ ',' :: strMap (JMap.mcons k2 v2 t2) from rfl]
          have hd : sizeMap (JMap.mcons k2 v2 t2) = 1 + sizeObj v2 + sizeMap t2 := rfl
          simp
          omega

theorem sizeObj_le_length (o : JObj) : sizeObj o ≤ (strObj o).length :=
  (sizeLe_aux (sizeObj o)).1 o le_rfl

/-- Serialization through the platform JSON encoder is lossless: parsing the
stringified form recovers a structurally equal value. -/
theorem jsonParse_jsonStringify (o : JObj) : jsonParse (jsonStringify o) = some o := by
  unfold jsonParse jsonStringify
  have h := parseVal_round o ((strObj o).length + 1) []
    (by have := sizeObj_le_length o; omega) rfl
  rw [List.append_nil] at h
  rw [show (String.mk (strObj o)).length = (strObj o).length from rfl,
      show (String.mk (strObj o)).data = strObj o from rfl, h]

/-! ## Lemmas about the cleanup registry and destroy -/

theorem runCleanupStep_fields (st : Inst) (a : CleanupAct) :
    (runCleanupStep st a).trace = st.trace ++ [Ev.cleanupRan a] ∧
    (runCleanupStep st a).onInit = st.onInit ∧
    (runCleanupStep st a).timerArmed = st.timerArmed ∧
    (runCleanupStep st a).registry = st.registry ∧
    (runCleanupStep st a).props = st.props ∧
    (runCleanupStep st a).destroyed = st.destroyed ∧
    (runCleanupStep st a).pendingUpdates = st.pendingUpdates := by
  cases a <;> simp [runCleanupStep, runCleanupAct]

theorem foldl_cleanup_fields (acts : List CleanupAct) (st : Inst) :
    (acts.foldl runCleanupStep st).trace = st.trace ++ acts.map Ev.cleanupRan ∧
    (acts.foldl runCleanupStep st).onInit = st.onInit ∧
    (acts.foldl runCleanupStep st).timerArmed = st.timerArmed ∧
    (acts.foldl runCleanupStep st).registry = st.registry ∧
    (acts.foldl runCleanupStep st).props = st.props ∧
    (acts.foldl runCleanupStep st).destroyed = st.destroyed ∧
    (acts.foldl runCleanupStep st).pendingUpdates = st.pendingUpdates := by
  induction acts generalizing st with
  | nil => simp
  | cons a t ih =>
    obtain ⟨h1, h2, h3, h4, h5, h6, h7⟩ := runCleanupStep_fields st a
    obtain ⟨g1, g2, g3, g4, g5, g6, g7⟩ := ih (runCleanupStep st a)
    simp only [List.foldl_cons, List.map_cons]
    rw [g1, g2, g3, g4, g5, g6, g7, h1, h2, h3, h4, h5, h6, h7]
    simp

/-- `destroy` runs every registered cleanup action in registration order, then
clears the registry; the promise state, timer flag and props are untouched. -/
theorem destroyInst_spec (st : Inst) :
    (destroyInst st).trace = st.trace ++ st.registry.map Ev.cleanupRan ∧
    (destroyInst st).registry = [] ∧
    (destroyInst st).destroyed = true ∧
    (destroyInst st).onInit = st.onInit ∧
    (destroyInst st).timerArmed = st.timerArmed ∧
    (destroyInst st).props = st.props ∧
    (destroyInst st).pendingUpdates = st.pendingUpdates := by
  obtain ⟨h1, h2, h3, _, h5, _, h7⟩ := foldl_cleanup_fields st.registry st
  unfold destroyInst
  exact ⟨h1, rfl, rfl, h2, h3, h5, h7⟩

/-! ## Lemmas about association lists and normalizeProps -/

theorem lookA_map_keyed {β γ : Type} (f : String → γ) (l : List (String × β)) (k : String) :
    lookA k (l.map (fun kp => (kp.1, f kp.1)))
      = (lookA k l).map (fun _ => f k) := by
  induction l with
  | nil => rfl
  | cons kv t ih =>
    by_cases h : kv.1 = k
    · simp [lookA, h]
    · simp [lookA, h, ih]

theorem lookA_of_mem_nodup {β : Type} {l : List (String × β)} {k : String} {v : β}
    (hmem : (k, v) ∈ l) (hnd : (l.map Prod.fst).Nodup) : lookA k l = some v := by
  induction l with
  | nil => cases hmem
  | cons kv t ih =>
    rcases List.mem_cons.mp hmem with h | h
    · rw [← h]; simp [lookA]
    · have hk : kv.1 ≠ k := by
        intro he
        have : k ∈ t.map Prod.fst := List.mem_map.mpr ⟨(k, v), h, rfl⟩
        simp only [List.map_cons, List.nodup_cons] at hnd
        exact hnd.1 (he ▸ this)
      simp only [lookA, if_neg hk]
      exact ih h (by simp only [List.map_cons, List.nodup_cons] at hnd; exact hnd.2)

theorem mem_of_lookA {β : Type} {l : List (String × β)} {k : String} {v : β}
    (h : lookA k l = some v) : (k, v) ∈ l := by
  induction l with
  | nil => cases h
  | cons kv t ih =>
    by_cases he : kv.1 = k
    · simp only [lookA, if_pos he] at h
      cases kv with
      | mk k1 v1 =>
        simp only at he
        simp only [Option.some.injEq] at h
        subst he
        subst h
        exact List.mem_cons_self _ _
    · simp only [lookA, if_neg he] at h
      exact List.mem_cons_of_mem _ (ih h)

theorem normalizeProps_keys (c : Component) (props : RawProps) :
    (normalizeProps c props).map Prod.fst = c.props.map Prod.fst := by
  simp [normalizeProps, List.map_map, Function.comp]

theorem lookA_normalizeProps (c : Component) (props : RawProps) (k : String) :
    lookA k (normalizeProps c props)
      = (lookA k c.props).map (fun _ => normalizeProp c props k) :=
  lookA_map_keyed (normalizeProp c props) c.props k

theorem lookupJ_normalizeProps_undecl (c : Component) (props : RawProps) (k : String)
    (h : lookA k c.props = none) :
    lookupJ (normalizeProps c props) k = JVal.undef := by
  unfold lookupJ
  rw [lookA_normalizeProps, h]
  rfl

/-! ## Idempotence of normalizeProp on already-normalized values -/

@[simp] theorem truthy_vb (b : Bool) : truthy (JVal.vb b) = b := rfl

@[simp] theorem hasAgain_vb (b : Bool) : hasAgain (JVal.vb b) = true := by
  cases b <;> rfl

@[simp] theorem hasAgain_vn (n : Int) : hasAgain (JVal.vn n) = true := by
  simp [hasAgain]

@[simp] theorem hasAgain_vo (o : JObj) : hasAgain (JVal.vo o) = true := by
  simp [hasAgain]

@[simp] theorem hasAgain_vf (f : FnVal) : hasAgain (JVal.vf f) = true := by
  simp [hasAgain]

@[simp] theorem hasAgain_jvnull : hasAgain JVal.jvnull = false := rfl

@[simp] theorem hasAgain_undef : hasAgain JVal.undef = false := rfl

theorem truthy_hasAgain {w : JVal} (h : truthy w = true) : hasAgain w = true := by
  cases w <;> simp_all [truthy, hasAgain]

theorem typeOk_undef (pt : PType) : typeOk pt JVal.undef = true := by
  cases pt <;> rfl

theorem typeOk_string_cases {v : JVal} (h : typeOk PType.pstring v = true) :
    v = JVal.undef ∨ v = JVal.jvnull ∨ ∃ s, v = JVal.vs s := by
  cases v <;> simp_all [typeOk]

theorem typeOk_object_cases {v : JVal} (h : typeOk PType.pobject v = true) :
    v = JVal.undef ∨ v = JVal.jvnull ∨ ∃ o, v = JVal.vo o := by
  cases v <;> simp_all [typeOk]

@[simp] theorem hasAgain_vs_empty : hasAgain (JVal.vs "") = false := rfl

@[simp] theorem truthy_vs_empty : truthy (JVal.vs "") = false := rfl

theorem string_hasAgain_truthy {v : JVal} (hty : typeOk PType.pstring v = true)
    (hha : hasAgain v = true) : truthy v = true := by
  cases v <;> simp_all [typeOk, hasAgain, truthy]

theorem object_hasAgain_truthy {v : JVal} (hty : typeOk PType.pobject v = true)
    (hha : hasAgain v = true) : truthy v = true := by
  cases v <;> simp_all [typeOk, hasAgain, truthy]

theorem parseIntJS_renorm (m : Int) :
    JVal.vn (parseIntJS (if truthy (JVal.vn m) then JVal.vn m else JVal.vn 0)) = JVal.vn m := by
  by_cases h : m = 0
  · subst h; rfl
  · simp [truthy, parseIntJS, h]

/-- Re-normalizing an already-normalized value of a non-function prop gives
the value back (on the second pass the `hasOwnProperty` conjunct of `hasProp`
is true, so only the value part `hasAgain` matters). -/
theorem normCore_idem (pd : PropDef) (hty : pd.ptype ≠ PType.pfunction)
    {v : JVal} (hv : typeOk pd.ptype v = true) (hasP : Bool)
    (hhp : hasP = true → hasAgain v = true) :
    normCore pd (hasAgain (normCore pd hasP v)) (normCore pd hasP v) = normCore pd hasP v := by
  obtain ⟨pt, dfl, nf, df, onf, mf⟩ := pd
  cases pt with
  | pfunction => exact absurd rfl hty
  | pboolean =>
    cases dfl with
    | none => simp [normCore]
    | some d => simp [normCore]
  | pnumber =>
    cases dfl with
    | none => simp [normCore, parseIntJS_renorm]
    | some d => simp [normCore, parseIntJS_renorm]
  | pstring =>
    cases dfl with
    | none =>
      simp only [normCore]
      by_cases ht0 : truthy v = true
      · simp [ht0]
      · simp only [Bool.not_eq_true] at ht0
        simp [ht0]
    | some d =>
      simp only [normCore]
      by_cases hdt : defTruthy d = true
      · by_cases hp : hasP = true
        · subst hp
          have hav : hasAgain v = true := hhp rfl
          have htv : truthy v = true := string_hasAgain_truthy hv hav
          simp [hdt, hav, htv]
        · simp only [Bool.not_eq_true] at hp
          subst hp
          by_cases htd :
              truthy (defEval ⟨PType.pstring, some d, nf, df, onf, mf⟩ d) = true
          · simp [hdt, htd, truthy_hasAgain htd]
          · simp only [Bool.not_eq_true] at htd
            simp [hdt, htd]
      · simp only [Bool.not_eq_true] at hdt
        by_cases ht0 : truthy v = true
        · simp [hdt, ht0, truthy_hasAgain ht0]
        · simp only [Bool.not_eq_true] at ht0
          simp [hdt, ht0]
  | pobject =>
    cases dfl with
    | none => simp [normCore]
    | some d =>
      simp only [normCore]
      by_cases hdt : defTruthy d = true
      · by_cases hp : hasP = true
        · subst hp
          have hav : hasAgain v = true := hhp rfl
          simp [hdt, hav]
        · simp only [Bool.not_eq_true] at hp
          subst hp
          simp [hdt]
      · simp only [Bool.not_eq_true] at hdt
        simp [hdt]

theorem validatedProps_typeOk {c : Component} {raw : RawProps}
    (hvp : validatedProps c raw = true) {k : String} {pd : PropDef}
    (hpd : schemaLookup c k = some pd) : typeOk pd.ptype (lookupJ raw k) = true := by
  unfold lookupJ
  cases hl : lookA k raw with
  | none => exact typeOk_undef pd.ptype
  | some v =>
    have hmem := mem_of_lookA hl
    have hall := (List.all_eq_true.mp hvp) (k, v) hmem
    simp only at hall
    rw [hpd] at hall
    exact hall

theorem hasPropB_imp_hasAgain (props : RawProps) (k : String) :
    hasPropB props k = true → hasAgain (lookupJ props k) = true := by
  unfold hasPropB hasAgain
  intro h
  simp only [Bool.and_eq_true] at h
  simp only [Bool.and_eq_true]
  exact ⟨⟨h.1.1.2, h.1.2⟩, h.2⟩

theorem normalizeProp_eq (c : Component) (k : String) (pd : PropDef) (props : RawProps)
    (hpd : schemaLookup c k = some pd) :
    normalizeProp c props k = normCore pd (hasPropB props k) (lookupJ props k) := by
  unfold normalizeProp
  rw [hpd]

theorem lookA_normalizeProps_some (c : Component) (raw : RawProps) (k : String)
    (pd : PropDef) (hpd : schemaLookup c k = some pd) :
    lookA k (normalizeProps c raw) = some (normalizeProp c raw k) := by
  rw [lookA_normalizeProps, show lookA k c.props = some pd from hpd]
  rfl

theorem hasPropB_normalizeProps (c : Component) (raw : RawProps) (k : String)
    (pd : PropDef) (hpd : schemaLookup c k = some pd) :
    hasPropB (normalizeProps c raw) k = hasAgain (normalizeProp c raw k) := by
  have hlkN := lookA_normalizeProps_some c raw k pd hpd
  unfold hasPropB hasAgain hasKeyB lookupJ
  rw [hlkN]
  simp

theorem lookupJ_normalizeProps (c : Component) (raw : RawProps) (k : String)
    (pd : PropDef) (hpd : schemaLookup c k = some pd) :
    lookupJ (normalizeProps c raw) k = normalizeProp c raw k := by
  unfold lookupJ
  rw [lookA_normalizeProps_some c raw k pd hpd]
  rfl

/-- Normalization is idempotent on schemas without function-typed props, for
schema-validated raw inputs. -/
theorem normalizeProps_idem (c : Component) (raw : RawProps)
    (hnd : (c.props.map Prod.fst).Nodup)
    (hvp : validatedProps c raw = true)
    (hnofn : ∀ kp ∈ c.props, kp.2.ptype ≠ PType.pfunction) :
    normalizeProps c (normalizeProps c raw) = normalizeProps c raw := by
  show c.props.map (fun kp => (kp.1, normalizeProp c (normalizeProps c raw) kp.1))
      = c.props.map (fun kp => (kp.1, normalizeProp c raw kp.1))
  apply List.map_congr_left
  intro kp hkp
  obtain ⟨k, pd⟩ := kp
  have hpd : schemaLookup c k = some pd := lookA_of_mem_nodup hkp hnd
  simp only [Prod.mk.injEq, true_and]
  rw [normalizeProp_eq c k pd _ hpd,
      hasPropB_normalizeProps c raw k pd hpd,
      lookupJ_normalizeProps c raw k pd hpd,
      normalizeProp_eq c k pd raw hpd]
  exact normCore_idem pd (hnofn (k, pd) hkp) (validatedProps_typeOk hvp hpd) _
    (hasPropB_imp_hasAgain raw k)

/-! ## Lemmas about updateProps and traces -/

theorem applyPropsUpdate_onInit (c : Component) (st : Inst) (raw : RawProps) :
    (applyPropsUpdate c st raw).onInit = st.onInit := by
  simp only [applyPropsUpdate]
  split <;> rfl

theorem applyPropsUpdate_window (c : Component) (st : Inst) (raw : RawProps) :
    (applyPropsUpdate c st raw).window = st.window := by
  simp only [applyPropsUpdate]
  split <;> rfl

/-- Characterization of the deferred updateProps body for a live instance:
props are the normalization of the merge, and a single PROPS message is traced
exactly when the stable serialization changed. -/
theorem applyPropsUpdate_spec (c : Component) (st : Inst) (raw : RawProps)
    (hw : st.window = true) :
    (applyPropsUpdate c st raw).props = normalizeProps c (extendProps st.props raw) ∧
    (swf (normalizeProps c (extendProps st.props raw)) ≠ swf st.props →
      (applyPropsUpdate c st raw).trace
        = st.trace ++ [Ev.sentProps (normalizeProps c (extendProps st.props raw))]) ∧
    (swf (normalizeProps c (extendProps st.props raw)) = swf st.props →
      (applyPropsUpdate c st raw).trace = st.trace) := by
  by_cases he : swf st.props = swf (normalizeProps c (extendProps st.props raw))
  · have hc : (st.window
        && !(swf st.props == swf (normalizeProps c (extendProps st.props raw)))) = false := by
      simp [he]
    simp only [applyPropsUpdate, hc, Bool.false_eq_true, if_false]
    exact ⟨trivial, fun hne => absurd he.symm hne, fun _ => trivial⟩
  · have hc : (st.window
        && !(swf st.props == swf (normalizeProps c (extendProps st.props raw)))) = true := by
      simp [hw, he]
    simp only [applyPropsUpdate, hc, if_true]
    exact ⟨trivial, fun _ => trivial, fun heq => absurd heq.symm he⟩

theorem countSent_append_sent (tr : List Ev) (ps : RawProps) :
    countSent (tr ++ [Ev.sentProps ps]) = countSent tr + 1 := by
  unfold countSent
  rw [List.filter_append, List.length_append]
  rw [show List.filter Ev.isSentProps [Ev.sentProps ps] = [Ev.sentProps ps] from rfl]
  rfl

theorem piece_ne_empty (a b : String) : a ++ "=" ++ b ≠ "" := by
  intro h
  have hl := congrArg String.length h
  rw [String.length_append, String.length_append] at hl
  have h1 : ("=" : String).length = 1 := rfl
  have h2 : ("" : String).length = 0 := rfl
  omega

/-! ## The claims -/

/-- C6 counterexample: the claim says a numeric prop serializes as its decimal
string, but a numeric prop equal to `0` is falsy and is omitted from the query
string entirely (the source returns `''` for every falsy value, which
`.filter(Boolean)` drops). -/
theorem claim_C6_counterexample :
    propsToQuery [("n", JVal.vn 0)] = "" ∧
    "" ≠ urlEncode "n" ++ "=" ++ urlEncode (intStr 0) := by
  constructor
  · rfl
  · decide

/-- C6 (amended): `propsToQuery` joins the kept `key=value` pieces with `&`;
a boolean prop yields `"1"` exactly when truthy and is omitted when falsy; a
*nonzero* numeric prop serializes as its decimal string while `0`, being
falsy, is omitted; an (always truthy) object prop serializes as JSON that
parses back to a structurally equal value; and a function-valued prop never
appears. -/
theorem claim_C6_propsToQuery (ps : RawProps) (k : String) (b : Bool) (n : Int)
    (f : FnVal) (o : JObj) :
    propsToQuery ps = String.intercalate "&" (ps.filterMap keepPiece) ∧
    keepPiece (k, JVal.vb b)
      = (if b then some (urlEncode k ++ "=" ++ urlEncode "1") else none) ∧
    (n ≠ 0 → keepPiece (k, JVal.vn n)
      = some (urlEncode k ++ "=" ++ urlEncode (intStr n))) ∧
    keepPiece (k, JVal.vn 0) = none ∧
    keepPiece (k, JVal.vf f) = none ∧
    keepPiece (k, JVal.vo o)
      = some (urlEncode k ++ "=" ++ urlEncode (jsonStringify o)) ∧
    jsonParse (jsonStringify o) = some o := by
  refine ⟨rfl, ?_, ?_, rfl, rfl, ?_, jsonParse_jsonStringify o⟩
  · cases b with
    | false => rfl
    | true =>
      show (if urlEncode k ++ "=" ++ urlEncode "1" = "" then none
            else some (urlEncode k ++ "=" ++ urlEncode "1"))
          = some (urlEncode k ++ "=" ++ urlEncode "1")
      rw [if_neg (piece_ne_empty (urlEncode k) (urlEncode "1"))]
  · intro hn
    have ht : truthy (JVal.vn n) = true := by simp [truthy, hn]
    simp only [keepPiece, queryBody, ht, Bool.not_true]
    rw [if_neg (by simp)]
    show (if urlEncode k ++ "=" ++ urlEncode (intStr n) = "" then none
          else some (urlEncode k ++ "=" ++ urlEncode (intStr n)))
        = some (urlEncode k ++ "=" ++ urlEncode (intStr n))
    rw [if_neg (piece_ne_empty (urlEncode k) (urlEncode (intStr n)))]
  · show (if urlEncode k ++ "=" ++ urlEncode (jsonStringify o) = "" then none
          else some (urlEncode k ++ "=" ++ urlEncode (jsonStringify o)))
        = some (urlEncode k ++ "=" ++ urlEncode (jsonStringify o))
    rw [if_neg (piece_ne_empty (urlEncode k) (urlEncode (jsonStringify o)))]

/-- C6 witness: concrete negative number and concrete nested object. -/
theorem claim_C6_propsToQuery_witness :
    keepPiece ("n", JVal.vn (-7))
      = some (urlEncode "n" ++ "=" ++ urlEncode (intStr (-7))) ∧
    jsonParse (jsonStringify (JObj.jmap (JMap.mcons "k" (JObj.jn 1) JMap.mnil)))
      = some (JObj.jmap (JMap.mcons "k" (JObj.jn 1) JMap.mnil)) :=
  ⟨(claim_C6_propsToQuery [] "n" true (-7) noopFn JObj.jnull).2.2.1 (by decide),
   (claim_C6_propsToQuery [] "n" true (-7) noopFn
      (JObj.jmap (JMap.mcons "k" (JObj.jn 1) JMap.mnil))).2.2.2.2.2.2⟩

/-- C7 counterexample: for a schema with a noop-flagged function prop,
normalizing the already-normalized props map again wraps and binds the noop
once more, so normalization is not idempotent as claimed. -/
theorem claim_C7_counterexample :
    normalizeProps cFnProp (normalizeProps cFnProp []) ≠ normalizeProps cFnProp [] := by
  decide

/-- C7 (amended): normalizing an empty raw input yields an entry for every
declared key, carrying the type-directed default; and normalization is
idempotent provided the schema declares no function-typed prop (a present
function value is re-wrapped and re-bound by every pass) and the raw input is
schema-validated. -/
theorem claim_C7_normalizeProps (c : Component) (raw : RawProps)
    (hnd : (c.props.map Prod.fst).Nodup)
    (hvp : validatedProps c raw = true)
    (hnofn : ∀ kp ∈ c.props, kp.2.ptype ≠ PType.pfunction) :
    (normalizeProps c []).map Prod.fst = c.props.map Prod.fst ∧
    (∀ kp ∈ c.props, lookA kp.1 (normalizeProps c [])
        = some (normCore kp.2 false JVal.undef)) ∧
    normalizeProps c (normalizeProps c raw) = normalizeProps c raw := by
  refine ⟨normalizeProps_keys c [], ?_, normalizeProps_idem c raw hnd hvp hnofn⟩
  intro kp hkp
  obtain ⟨k, pd⟩ := kp
  have hpd : schemaLookup c k = some pd := lookA_of_mem_nodup hkp hnd
  rw [lookA_normalizeProps_some c [] k pd hpd, normalizeProp_eq c k pd [] hpd]
  rfl

/-- C7 witness: a one-key string schema with a validated input. -/
theorem claim_C7_normalizeProps_witness :
    (normalizeProps cUpd []).map Prod.fst = cUpd.props.map Prod.fst ∧
    normalizeProps cUpd (normalizeProps cUpd [("a", JVal.vs "x")])
      = normalizeProps cUpd [("a", JVal.vs "x")] :=
  ⟨(claim_C7_normalizeProps cUpd [("a", JVal.vs "x")] (by decide) (by decide)
      (by decide)).1,
   (claim_C7_normalizeProps cUpd [("a", JVal.vs "x")] (by decide) (by decide)
      (by decide)).2.2⟩

/-- C10: the normalized props map's key list is exactly the schema's key list
(in schema order); a supplied key that is not declared never appears in the
normalized map. -/
theorem claim_C10_normalizedKeys (c : Component) (raw : RawProps) :
    (normalizeProps c raw).map Prod.fst = c.props.map Prod.fst ∧
    (∀ k, lookA k c.props = none → lookupJ (normalizeProps c raw) k = JVal.undef) ∧
    (∀ k, lookA k c.props = none → hasKeyB (normalizeProps c raw) k = false) := by
  refine ⟨normalizeProps_keys c raw,
    fun k h => lookupJ_normalizeProps_undecl c raw k h, fun k h => ?_⟩
  unfold hasKeyB
  rw [lookA_normalizeProps, h]
  rfl

/-- C10 witness: a raw input supplying an undeclared key `zz`. -/
theorem claim_C10_normalizedKeys_witness :
    (normalizeProps cEx [("zz", JVal.vs "q"), ("env", JVal.vs "prod")]).map Prod.fst
      = cEx.props.map Prod.fst ∧
    hasKeyB (normalizeProps cEx [("zz", JVal.vs "q"), ("env", JVal.vs "prod")]) "zz"
      = false :=
  ⟨(claim_C10_normalizedKeys cEx [("zz", JVal.vs "q"), ("env", JVal.vs "prod")]).1,
   (claim_C10_normalizedKeys cEx [("zz", JVal.vs "q"), ("env", JVal.vs "prod")]).2.2
      "zz" (by decide)⟩

/-- C1: `runTimeout` arms the deferred check exactly when the `timeout` prop is
truthy.  If the init future is still pending at expiry, it is rejected with
the timing error, the timeout callback is invoked exactly once with that
error, and the instance is destroyed (all cleanups run, registry cleared); a
later fire is a no-op.  Conversely, if the future already resolved, the
rejection attempt is a no-op (it stays resolved), the timeout callback is
never invoked, and nothing is destroyed — only the spent timer flag changes. -/
theorem claim_C1_runTimeout (st : Inst) :
    (truthy (lookupJ st.props "timeout") = false → runTimeoutI st = st) ∧
    (truthy (lookupJ st.props "timeout") = true →
      runTimeoutI st = { st with timerArmed := true }) ∧
    (st.timerArmed = true → st.onInit = PState.pending →
      (timerFire st).onInit = PState.rejectedP (ErrKind.loadTimeout st.tag) ∧
      (timerFire st).trace
        = st.trace ++ [Ev.onTimeoutCall (ErrKind.loadTimeout st.tag)]
            ++ st.registry.map Ev.cleanupRan ∧
      (timerFire st).destroyed = true ∧
      (timerFire st).registry = [] ∧
      timerFire (timerFire st) = timerFire st) ∧
    (st.timerArmed = true → st.onInit = PState.resolvedP →
      timerFire st = { st with timerArmed := false }) := by
  refine ⟨fun h => by simp [runTimeoutI, h], fun h => by simp [runTimeoutI, h], ?_, ?_⟩
  · intro ha hp
    have hred : timerFire st = destroyInst { st with timerArmed := false, onInit := PState.rejectedP (ErrKind.loadTimeout st.tag), trace := st.trace ++ [Ev.onTimeoutCall (ErrKind.loadTimeout st.tag)] } := by
      unfold timerFire
      rw [ha]
      simp only [Bool.not_true, Bool.false_eq_true, if_false]
      rw [show ({ st with timerArmed := false } : Inst).onInit = st.onInit from rfl, hp]
      rfl
    obtain ⟨t1, t2, t3, t4, t5, _, _⟩ :=
      destroyInst_spec { st with timerArmed := false, onInit := PState.rejectedP (ErrKind.loadTimeout st.tag), trace := st.trace ++ [Ev.onTimeoutCall (ErrKind.loadTimeout st.tag)] }
    rw [hred]
    refine ⟨t4, by rw [t1], t3, t2, ?_⟩
    unfold timerFire
    rw [t5]
    simp
  · intro ha hr
    unfold timerFire
    rw [ha]
    simp only [Bool.not_true, Bool.false_eq_true, if_false]
    rw [show ({ st with timerArmed := false } : Inst).onInit = st.onInit from rfl, hr]

/-- C1 witness: an instance with a 5000ms timeout prop and two registered
cleanups, both timeout-fire orders. -/
theorem claim_C1_runTimeout_witness :
    runTimeoutI stTimer = { stTimer with timerArmed := true } ∧
    (timerFire { stTimer with timerArmed := true }).onInit
      = PState.rejectedP (ErrKind.loadTimeout "t") ∧
    (timerFire { stTimer with timerArmed := true }).destroyed = true ∧
    (timerFire { stTimer with timerArmed := true }).registry = [] ∧
    timerFire { stTimer with timerArmed := true, onInit := PState.resolvedP }
      = { stTimer with timerArmed := false, onInit := PState.resolvedP } :=
  ⟨(claim_C1_runTimeout stTimer).2.1 (by decide),
   ((claim_C1_runTimeout { stTimer with timerArmed := true }).2.2.1 rfl rfl).1,
   ((claim_C1_runTimeout { stTimer with timerArmed := true }).2.2.1 rfl rfl).2.2.1,
   ((claim_C1_runTimeout { stTimer with timerArmed := true }).2.2.1 rfl rfl).2.2.2.1,
   (claim_C1_runTimeout { stTimer with timerArmed := true, onInit := PState.resolvedP }).2.2.2 rfl rfl⟩

/-- C2: `render` on an already-rendered instance (live window) throws a
ConfigurationError, and `render` with an explicit context not in the allowed
set throws a ConfigurationError — in both cases synchronously, before any
surface is opened or resource acquired (the error is returned with no
successor state), regardless of the other arguments. -/
theorem claim_C2_validateRender (c : Component) (st : Inst) (el : Option Nat)
    (ctx : Option CtxType) (t : CtxType) :
    (st.window = true →
      render c st el ctx = Except.error (ErrKind.alreadyRendered c.tag) ∧
      isConfigurationError (ErrKind.alreadyRendered c.tag) = true) ∧
    (st.window = false → c.contexts.allows t = false →
      render c st el (some t) = Except.error (ErrKind.invalidContext t) ∧
      isConfigurationError (ErrKind.invalidContext t) = true) := by
  constructor
  · intro hw
    refine ⟨?_, rfl⟩
    unfold render validateRender
    rw [hw]
    simp
  · intro hw ha
    refine ⟨?_, rfl⟩
    unfold render validateRender
    rw [hw]
    simp [ha]

/-- C2 witness: a rendered instance, and a disallowed popup context. -/
theorem claim_C2_validateRender_witness :
    render cEx stErr none none = Except.error (ErrKind.alreadyRendered "x") ∧
    render cEx { tag := "x" } none (some CtxType.popup)
      = Except.error (ErrKind.invalidContext CtxType.popup) :=
  ⟨((claim_C2_validateRender cEx stErr none none CtxType.popup).1 rfl).1,
   ((claim_C2_validateRender cEx { tag := "x" } none none CtxType.popup).2 rfl rfl).1⟩

/-- C3: for components accepted by the definition validator (whose implicit
default context can only be lightbox or popup), `getRenderContext` implements
exactly the spec's priority: explicit element forces iframe (error if iframe
not allowed), else the declared default context, else lightbox if allowed,
else popup if allowed, else a configuration error.  On the spec's example
component, rendering with a target element selects iframe, the URL builds to
`https://x.example/run?env=prod`, and removing iframe from the allowed
contexts yields a ConfigurationError. -/
theorem claim_C3_contextPriority (c : Component) (hval : validComponent c = true) :
    (∀ el, getRenderContext c el = specContextPriority c el) ∧
    getRenderContext cEx (some 0) = Except.ok CtxType.iframe ∧
    buildUrl cEx (normalizeProps cEx [("env", JVal.vs "prod")])
      = "https://x.example/run?env=prod" ∧
    getRenderContext cExNoIframe (some 0)
      = Except.error (ErrKind.iframeNotAllowed "x") ∧
    isConfigurationError (ErrKind.iframeNotAllowed "x") = true := by
  refine ⟨?_, rfl, by decide, rfl, rfl⟩
  intro el
  cases el with
  | some e =>
    cases hic : c.contexts.iframe with
    | false => simp [getRenderContext, specContextPriority, hic]
    | true => simp [getRenderContext, specContextPriority, hic]
  | none =>
    cases hdc : c.defaultContext with
    | none => simp [getRenderContext, specContextPriority, hdc]
    | some d =>
      cases d with
      | iframe =>
        exfalso
        unfold validComponent at hval
        rw [hdc] at hval
        simp at hval
      | lightbox => simp [getRenderContext, specContextPriority, hdc]
      | popup => simp [getRenderContext, specContextPriority, hdc]

/-- C3 witness: the example component is validator-accepted and resolves its
context with no element to lightbox, matching the spec priority. -/
theorem claim_C3_contextPriority_witness :
    validComponent cEx = true ∧
    getRenderContext cEx none = specContextPriority cEx none ∧
    buildUrl cEx (normalizeProps cEx [("env", JVal.vs "prod")])
      = "https://x.example/run?env=prod" :=
  ⟨by decide, (claim_C3_contextPriority cEx (by decide)).1 none,
   (claim_C3_contextPriority cEx (by decide)).2.2.1⟩

/-- C4 counterexample: the claim's "sends exactly one PROPS message iff the
serialization differs" omits the source's `this.window` guard — for an
instance whose init future is resolved but whose window handle is gone, the
merged serialization differs yet no PROPS message is sent. -/
theorem claim_C4_counterexample :
    (updateProps cUpd stUpdNoWindow [("a", JVal.vs "x")]).trace = [] ∧
    swf (normalizeProps cUpd (extendProps stUpdNoWindow.props [("a", JVal.vs "x")]))
      ≠ swf stUpdNoWindow.props := by
  constructor
  · rfl
  · decide

theorem updateProps_resolved (c : Component) (st : Inst) (raw : RawProps)
    (h : st.onInit = PState.resolvedP) :
    updateProps c st raw = applyPropsUpdate c st raw := by
  unfold updateProps
  rw [h]

/-- C4 (amended): `updateProps` never sends a PROPS message before the init
future resolves (pending updates are queued; a rejected future drops them);
once resolved, *and provided the instance still holds its child window*, it
merges the new props over the existing ones, and appends exactly one PROPS
message carrying the full normalized merged props iff the stable serialization
changed; two consecutive calls whose merged serialized results are identical
send at most one message in total. -/
theorem claim_C4_updateProps (c : Component) (st : Inst) (r r1 r2 : RawProps)
    (e : ErrKind) :
    (st.onInit = PState.pending →
      (updateProps c st r).trace = st.trace ∧
      (updateProps c st r).pendingUpdates = st.pendingUpdates ++ [r]) ∧
    (st.onInit = PState.rejectedP e → updateProps c st r = st) ∧
    (st.onInit = PState.resolvedP → st.window = true →
      (updateProps c st r).props = normalizeProps c (extendProps st.props r) ∧
      (swf (normalizeProps c (extendProps st.props r)) ≠ swf st.props →
        (updateProps c st r).trace
          = st.trace ++ [Ev.sentProps (normalizeProps c (extendProps st.props r))]) ∧
      (swf (normalizeProps c (extendProps st.props r)) = swf st.props →
        (updateProps c st r).trace = st.trace)) ∧
    (st.onInit = PState.resolvedP → st.window = true →
      swf ((updateProps c (updateProps c st r1) r2).props)
          = swf ((updateProps c st r1).props) →
      countSent (updateProps c (updateProps c st r1) r2).trace
        ≤ countSent st.trace + 1) := by
  refine ⟨fun hp => ?_, fun he => ?_, fun hr hw => ?_, fun hr hw hsw => ?_⟩
  · simp [updateProps, hp]
  · simp [updateProps, he]
  · rw [updateProps_resolved c st r hr]
    exact applyPropsUpdate_spec c st r hw
  · have h1 : updateProps c st r1 = applyPropsUpdate c st r1 :=
      updateProps_resolved c st r1 hr
    have hA1 : (updateProps c st r1).onInit = PState.resolvedP := by
      rw [h1, applyPropsUpdate_onInit, hr]
    have hAw : (updateProps c st r1).window = true := by
      rw [h1, applyPropsUpdate_window, hw]
    have h2 : updateProps c (updateProps c st r1) r2
        = applyPropsUpdate c (updateProps c st r1) r2 :=
      updateProps_resolved c (updateProps c st r1) r2 hA1
    obtain ⟨p2, _, t2eq⟩ := applyPropsUpdate_spec c (updateProps c st r1) r2 hAw
    rw [h2] at hsw ⊢
    rw [p2] at hsw
    rw [t2eq hsw]
    obtain ⟨_, tne, teq⟩ := applyPropsUpdate_spec c st r1 hw
    by_cases hc : swf (normalizeProps c (extendProps st.props r1)) = swf st.props
    · rw [h1, teq hc]
      omega
    · rw [h1, tne hc, countSent_append_sent]

/-- C4 witness: a queued update before init, a live update sending one
message, and a repeated identical update sending no second message. -/
theorem claim_C4_updateProps_witness :
    (updateProps cUpd { stUpdLive with onInit := PState.pending }
        [("a", JVal.vs "x")]).trace = [] ∧
    (updateProps cUpd stUpdLive [("a", JVal.vs "x")]).trace
      = stUpdLive.trace
          ++ [Ev.sentProps (normalizeProps cUpd
                (extendProps stUpdLive.props [("a", JVal.vs "x")]))] ∧
    countSent (updateProps cUpd (updateProps cUpd stUpdLive [("a", JVal.vs "x")])
        [("a", JVal.vs "x")]).trace ≤ countSent stUpdLive.trace + 1 :=
  ⟨((claim_C4_updateProps cUpd { stUpdLive with onInit := PState.pending }
      [("a", JVal.vs "x")] [] [] (ErrKind.remoteError "")).1 rfl).1,
   ((claim_C4_updateProps cUpd stUpdLive [("a", JVal.vs "x")] [] []
      (ErrKind.remoteError "")).2.2.1 rfl rfl).2.1 (by decide),
   (claim_C4_updateProps cUpd stUpdLive [] [("a", JVal.vs "x")] [("a", JVal.vs "x")]
      (ErrKind.remoteError "")).2.2.2 rfl rfl (by decide)⟩

/-- C5: constructing a second instance of a singleton component while the
first is live fails; destroying the first removes its entry from the global
active list, after which construction succeeds again. -/
theorem claim_C5_singleton (g g1 : GState) (c : Component) (raw : RawProps)
    (id1 id2 id3 : Nat) (i1 : Inst)
    (hs : c.singleton = true)
    (hfresh : ∀ en ∈ g, en.instId ≠ id1)
    (hok : constructInst g c id1 raw = Except.ok (g1, i1)) :
    constructInst g1 c id2 raw = Except.error (ErrKind.singletonViolation c.tag) ∧
    (destroyG g1 i1).1 = g ∧
    constructInst (destroyG g1 i1).1 c id3 raw
      = Except.ok ((destroyG g1 i1).1 ++ [⟨id3, c.tag⟩],
          { tag := c.tag, props := normalizeProps c raw,
            url := buildUrl c (normalizeProps c raw),
            registry := [CleanupAct.removeActive id3] }) := by
  have hany : g.any (fun en => en.ctag == c.tag) = false := by
    cases h : g.any (fun en => en.ctag == c.tag) with
    | false => rfl
    | true =>
      exfalso
      unfold constructInst at hok
      rw [hs, h] at hok
      simp at hok
  have hcond : (c.singleton && g.any (fun en => en.ctag == c.tag)) = false := by
    rw [hs, hany]
    rfl
  unfold constructInst at hok
  rw [hcond] at hok
  simp only [Bool.false_eq_true, if_false, Except.ok.injEq, Prod.mk.injEq] at hok
  obtain ⟨hg1, hi1⟩ := hok
  refine ⟨?_, ?_, ?_⟩
  · unfold constructInst
    rw [← hg1, hs]
    simp
  · unfold destroyG
    rw [show i1.registry = [CleanupAct.removeActive id1] from by rw [← hi1]]
    simp only [List.foldl_cons, List.foldl_nil]
    show g1.filter (fun en => !(en.instId == id1)) = g
    rw [← hg1, List.filter_append,
        show List.filter (fun en => !(en.instId == id1)) [(⟨id1, c.tag⟩ : GEntry)] = []
          from by simp,
        List.append_nil]
    apply List.filter_eq_self.mpr
    intro en hen
    simp [hfresh en hen]
  · have hdg : (destroyG g1 i1).1 = g := by
      unfold destroyG
      rw [show i1.registry = [CleanupAct.removeActive id1] from by rw [← hi1]]
      simp only [List.foldl_cons, List.foldl_nil]
      show g1.filter (fun en => !(en.instId == id1)) = g
      rw [← hg1, List.filter_append,
          show List.filter (fun en => !(en.instId == id1)) [(⟨id1, c.tag⟩ : GEntry)] = []
            from by simp,
          List.append_nil]
      apply List.filter_eq_self.mpr
      intro en hen
      simp [hfresh en hen]
    rw [hdg]
    unfold constructInst
    rw [hcond]
    simp

/-- C5 witness: the concrete singleton component with ids 1, 2, 3. -/
theorem claim_C5_singleton_witness :
    constructInst gSing cSing 2 [] = Except.error (ErrKind.singletonViolation "s") ∧
    (destroyG gSing iSing).1 = [] ∧
    constructInst (destroyG gSing iSing).1 cSing 3 []
      = Except.ok ((destroyG gSing iSing).1 ++ [⟨3, "s"⟩],
          { tag := "s", props := normalizeProps cSing [],
            url := buildUrl cSing (normalizeProps cSing []),
            registry := [CleanupAct.removeActive 3] }) :=
  claim_C5_singleton [] gSing cSing [] 1 2 3 iSing rfl (by simp) rfl

/-- C8 counterexample: the claim says the instance is fully torn down before
the error callback returns control, but the source invokes `onError` first and
destroys afterwards — in the emitted trace the cleanup actions run strictly
after the error-callback event, so teardown is not complete at (or before) the
callback. -/
theorem claim_C8_counterexample :
    tornDownBeforeErrorCallback (errorFlow stErr (ErrKind.remoteError "boom")).trace
      = false ∧
    (errorFlow stErr (ErrKind.remoteError "boom")).trace
      = [Ev.onErrorCall (ErrKind.remoteError "boom"),
         Ev.cleanupRan CleanupAct.clearWindow,
         Ev.cleanupRan CleanupAct.removeOverlay] := by
  constructor
  · decide
  · decide

/-- C8 (amended): for every fatal error routed through the error flow
(including a child-reported ERROR message), the error callback is invoked
first and the instance is then fully torn down — all registered cleanup
actions executed in order and the registry cleared — before the error routine
returns control to its caller (so a fresh instance may be rendered right after
the flow completes); during the callback itself the instance is not yet
destroyed. -/
theorem claim_C8_errorFlow (st : Inst) (e : ErrKind) (msg : String) :
    (errorFlow st e).trace
      = st.trace ++ [Ev.onErrorCall e] ++ st.registry.map Ev.cleanupRan ∧
    (errorFlow st e).destroyed = true ∧
    (errorFlow st e).registry = [] ∧
    childErrorMsg st msg = errorFlow st (ErrKind.remoteError msg) := by
  obtain ⟨h1, h2, h3, _, _, _, _⟩ :=
    destroyInst_spec { st with trace := st.trace ++ [Ev.onErrorCall e] }
  exact ⟨h1, h3, h2, rfl⟩

/-- C9: `close` invokes the close callback first, then attempts CLOSE delivery
(a failure adds only a logged warning), and destroys unconditionally in either
transport outcome; the returned future is fulfilled even when delivery
failed. -/
theorem claim_C9_close (st : Inst) (sendOk : Bool) :
    (closeInst st sendOk).1 = POutcome.fulfilled ∧
    (closeInst st sendOk).2.destroyed = true ∧
    (closeInst st sendOk).2.registry = [] ∧
    (closeInst st sendOk).2.trace
      = st.trace ++ [Ev.onCloseCall] ++ [Ev.sentClose]
          ++ (if sendOk then [] else [Ev.warnedCloseFailed])
          ++ st.registry.map Ev.cleanupRan := by
  cases sendOk with
  | true =>
    obtain ⟨h1, h2, h3, _, _, _, _⟩ :=
      destroyInst_spec { st with trace := st.trace ++ [Ev.onCloseCall] ++ [Ev.sentClose] }
    refine ⟨rfl, h3, h2, ?_⟩
    rw [show (closeInst st true).2
          = destroyInst { st with trace := st.trace ++ [Ev.onCloseCall] ++ [Ev.sentClose] }
        from by simp [closeInst], h1]
    simp
  | false =>
    obtain ⟨h1, h2, h3, _, _, _, _⟩ :=
      destroyInst_spec { st with trace := st.trace ++ [Ev.onCloseCall] ++ [Ev.sentClose]
                          ++ [Ev.warnedCloseFailed] }
    refine ⟨rfl, h3, h2, ?_⟩
    rw [show (closeInst st false).2
          = destroyInst { st with trace := st.trace ++ [Ev.onCloseCall] ++ [Ev.sentClose]
              ++ [Ev.warnedCloseFailed] }
        from by simp [closeInst], h1]
    simp

end Zoid
